import Mathlib

/-!
Verification of the notemind core algorithms: the sensitive-data
anonymizer (`backend/app/ai.py`), the hybrid search / relatedness ranker
(`backend/app/main.py`), and the leader–follower clusterer
(`backend/app/clustering.py`).

Modelling conventions:
* Python strings are Lean `String` / `List Char`; the ASCII fragments of
  the character classes `\w`, `\s`, `\d`, `[a-z]`, ... are used (all inputs
  of interest are ASCII).
* Python floats are modelled as real numbers (`ℝ`); `math.sqrt` and
  `** 0.5` become `Real.sqrt`.
* The random hex supply of `secrets.token_hex(4)` is modelled as an
  explicit stream `supply : Nat → String` consumed left to right.
* Python regexes are modelled by a small backtracking matcher combinator
  library; a matcher returns the list of possible match lengths at a
  position in backtracking-priority order, so its head is exactly the
  match Python's `re` engine produces at that position.
-/

/-! ## Character classes (ASCII fragments of the Python classes) -/

/-- ASCII `[a-z]`. -/
def isAsciiLower (c : Char) : Bool := 'a' ≤ c && c ≤ 'z'

/-- ASCII `[A-Z]`. -/
def isAsciiUpper (c : Char) : Bool := 'A' ≤ c && c ≤ 'Z'

/-- ASCII `\d` = `[0-9]`. -/
def isAsciiDigit (c : Char) : Bool := '0' ≤ c && c ≤ '9'

/-- ASCII `[A-Za-z0-9]`. -/
def isAsciiAlnum (c : Char) : Bool := isAsciiLower c || isAsciiUpper c || isAsciiDigit c

/-- ASCII `\w` = `[A-Za-z0-9_]`. -/
def isWordChar (c : Char) : Bool := isAsciiAlnum c || c = '_'

/-- ASCII `\s` (space, tab, newline, carriage return, vertical tab, form feed). -/
def isSpaceChar (c : Char) : Bool :=
  c = ' ' || c = Char.ofNat 9 || c = Char.ofNat 10 || c = Char.ofNat 13 ||
  c = Char.ofNat 11 || c = Char.ofNat 12

/-- Lowercase hex digit `[0-9a-f]`, as in the `ANON_` placeholder pattern. -/
def isHexLower (c : Char) : Bool := isAsciiDigit c || ('a' ≤ c && c ≤ 'f')

/-- ASCII lowering, the fragment of Python `str.lower` used here. -/
def charLower (c : Char) : Char := if isAsciiUpper c then Char.ofNat (c.toNat + 32) else c

/-! ## Placeholder shape

`ANON_PLACEHOLDER_PATTERN = re.compile(r"\bANON_[0-9a-f]{8}\b")`, used with
`fullmatch` inside `_is_placeholder` (on a full match the `\b` anchors are
vacuous for this shape). -/

/-- List-of-chars version of `_is_placeholder`: the string is exactly
`ANON_` followed by eight lowercase hex digits (equivalently: it starts
with `ANON_`, has total length 13, and its last eight characters are
lowercase hex digits). -/
def isPlaceholderL (s : List Char) : Bool :=
  "ANON_".data.isPrefixOf s && s.length == 13 && (s.drop 5).all isHexLower

/-- `_is_placeholder` from `ai.py`. -/
def _is_placeholder (value : String) : Bool := isPlaceholderL value.data

/-! ## `_count_char_groups` and `_looks_like_complex_password` (`ai.py`) -/

/-- `_count_char_groups`: one point for each of the classes `[a-z]`,
`[A-Z]`, `\d`, `[^A-Za-z0-9]` that occurs in the value. -/
def _count_char_groups (value : String) : Nat :=
  (if value.data.any isAsciiLower then 1 else 0) +
  (if value.data.any isAsciiUpper then 1 else 0) +
  (if value.data.any isAsciiDigit then 1 else 0) +
  (if value.data.any (fun c => !(isAsciiAlnum c)) then 1 else 0)

/-- The strong-symbol class of `_looks_like_complex_password`:
the regex class holding `! @ # $ % ^ & * ( ) + = [ ] | : ; , . ? / ~`,
the two curly braces and the backquote. -/
def isStrongSymbol (c : Char) : Bool :=
  c = '!' || c = '@' || c = '#' || c = '$' || c = '%' || c = '^' || c = '&' ||
  c = '*' || c = '(' || c = ')' || c = '+' || c = '=' || c = '[' || c = ']' ||
  c = Char.ofNat 123 || c = Char.ofNat 125 || c = '|' || c = ':' || c = ';' ||
  c = ',' || c = '.' || c = '?' || c = '/' || c = '~' || c = Char.ofNat 96

/-- `_looks_like_complex_password` from `ai.py`. -/
def _looks_like_complex_password (value : String) : Bool :=
  if value.length < 8 || _is_placeholder value then false
  else
    let groups := _count_char_groups value
    let has_strong_symbol := value.data.any isStrongSymbol
    if groups ≥ 4 && has_strong_symbol then true
    else if groups ≥ 3 && has_strong_symbol then true
    else false

/-! ## Cosine similarity (`clustering.py` and `main.py`) -/

/-- Sum of pairwise products of two vectors (`sum(a * b for a, b in zip(v1, v2))`). -/
def dotList (v1 v2 : List ℝ) : ℝ := (List.zipWith (fun a b => a * b) v1 v2).sum

/-- Sum of squares of a vector (`sum(a * a for a in v)`). -/
def sumSq (v : List ℝ) : ℝ := (v.map (fun a => a * a)).sum

/-- `cosine_similarity` from `clustering.py`. -/
noncomputable def cosine_similarity (v1 v2 : List ℝ) : ℝ :=
  if v1.isEmpty || v2.isEmpty || v1.length != v2.length then 0
  else
    let dot_product := dotList v1 v2
    let norm_a := Real.sqrt (sumSq v1)
    let norm_b := Real.sqrt (sumSq v2)
    if norm_a = 0 ∨ norm_b = 0 then 0
    else dot_product / (norm_a * norm_b)

/-- `_cosine_similarity` from `main.py` (same computation; `** 0.5` instead
of `math.sqrt`). -/
noncomputable def _cosine_similarity (vec_a vec_b : List ℝ) : ℝ :=
  if vec_a.isEmpty || vec_b.isEmpty || vec_a.length != vec_b.length then 0
  else
    let dot := dotList vec_a vec_b
    let norm_a := Real.sqrt (sumSq vec_a)
    let norm_b := Real.sqrt (sumSq vec_b)
    if norm_a = 0 ∨ norm_b = 0 then 0
    else dot / (norm_a * norm_b)

theorem sumSq_nonneg (v : List ℝ) : 0 ≤ sumSq v := by
  unfold sumSq
  apply List.sum_nonneg
  intro x hx
  rcases List.mem_map.mp hx with ⟨a, _, rfl⟩
  exact mul_self_nonneg a

theorem dotList_sq_le (u v : List ℝ) : (dotList u v) ^ 2 ≤ sumSq u * sumSq v := by
  induction u generalizing v with
  | nil =>
    simp [dotList, sumSq]
  | cons a u ih =>
    cases v with
    | nil =>
      simp [dotList, sumSq]
    | cons b v =>
      have h := ih v
      have hsu : 0 ≤ sumSq u := sumSq_nonneg u
      have hsv : 0 ≤ sumSq v := sumSq_nonneg v
      have hd : dotList (a :: u) (b :: v) = a * b + dotList u v := by
        simp [dotList]
      have hs1 : sumSq (a :: u) = a * a + sumSq u := by simp [sumSq]
      have hs2 : sumSq (b :: v) = b * b + sumSq v := by simp [sumSq]
      rw [hd, hs1, hs2]
      rcases eq_or_lt_of_le hsu with hsu0 | hsu0
      · have hd2 : dotList u v ^ 2 ≤ 0 := by rw [← hsu0] at h; simpa using h
        have hd0 : dotList u v = 0 := by
          have := sq_nonneg (dotList u v)
          have h0 : dotList u v ^ 2 = 0 := le_antisymm hd2 this
          exact pow_eq_zero_iff (n := 2) (by norm_num) |>.mp h0
        rw [hd0, ← hsu0]
        nlinarith [mul_nonneg (sq_nonneg a) hsv]
      · nlinarith [sq_nonneg (a * dotList u v - b * sumSq u),
          mul_nonneg (by positivity : (0:ℝ) ≤ a ^ 2 + sumSq u)
            (by nlinarith : (0:ℝ) ≤ sumSq u * sumSq v - dotList u v ^ 2)]

theorem dotList_comm (u v : List ℝ) : dotList u v = dotList v u := by
  induction u generalizing v with
  | nil => cases v <;> simp [dotList]
  | cons a u ih =>
    cases v with
    | nil => simp [dotList]
    | cons b v =>
      have := ih v
      simp [dotList] at this ⊢
      rw [mul_comm a b, this]

/-- Characterization of `cosine_similarity` with propositional conditions. -/
theorem cosine_similarity_eq (v1 v2 : List ℝ) :
    cosine_similarity v1 v2 =
      if v1 = [] ∨ v2 = [] ∨ v1.length ≠ v2.length then 0
      else if Real.sqrt (sumSq v1) = 0 ∨ Real.sqrt (sumSq v2) = 0 then 0
      else dotList v1 v2 / (Real.sqrt (sumSq v1) * Real.sqrt (sumSq v2)) := by
  unfold cosine_similarity
  by_cases h : v1 = [] ∨ v2 = [] ∨ v1.length ≠ v2.length
  · have hb : (v1.isEmpty || v2.isEmpty || v1.length != v2.length) = true := by
      rcases h with h | h | h <;> simp [h, List.isEmpty_iff]
    rw [hb, if_pos h]
    rfl
  · have h' := h
    push_neg at h'
    have hb : (v1.isEmpty || v2.isEmpty || v1.length != v2.length) = false := by
      simp [List.isEmpty_iff, h'.1, h'.2.1, h'.2.2]
    rw [hb, if_neg h]
    simp only [Bool.false_eq_true, if_false]

/-- C9: cosine similarity (both the `clustering.py` and `main.py` copies,
which agree) is symmetric, bounded in `[-1, 1]`, equal to the dot product
divided by the product of Euclidean norms when both vectors are non-empty,
of equal length and of non-zero norm, and equal to exactly 0 whenever
either vector is empty, the lengths differ, or either norm is zero
(in particular for any zero vector input). -/
theorem claim_C9 (v1 v2 : List ℝ) :
    _cosine_similarity v1 v2 = cosine_similarity v1 v2 ∧
    cosine_similarity v1 v2 = cosine_similarity v2 v1 ∧
    -1 ≤ cosine_similarity v1 v2 ∧ cosine_similarity v1 v2 ≤ 1 ∧
    (v1 ≠ [] → v2 ≠ [] → v1.length = v2.length →
      Real.sqrt (sumSq v1) ≠ 0 → Real.sqrt (sumSq v2) ≠ 0 →
      cosine_similarity v1 v2 =
        dotList v1 v2 / (Real.sqrt (sumSq v1) * Real.sqrt (sumSq v2))) ∧
    (v1 = [] ∨ v2 = [] ∨ v1.length ≠ v2.length ∨
        Real.sqrt (sumSq v1) = 0 ∨ Real.sqrt (sumSq v2) = 0 →
      cosine_similarity v1 v2 = 0) := by
  have habs : |dotList v1 v2| ≤ Real.sqrt (sumSq v1) * Real.sqrt (sumSq v2) := by
    nlinarith [dotList_sq_le v1 v2, Real.sq_sqrt (sumSq_nonneg v1),
      Real.sq_sqrt (sumSq_nonneg v2), abs_nonneg (dotList v1 v2),
      sq_abs (dotList v1 v2), Real.sqrt_nonneg (sumSq v1), Real.sqrt_nonneg (sumSq v2),
      mul_nonneg (Real.sqrt_nonneg (sumSq v1)) (Real.sqrt_nonneg (sumSq v2))]
  have hbound : -1 ≤ cosine_similarity v1 v2 ∧ cosine_similarity v1 v2 ≤ 1 := by
    rw [cosine_similarity_eq]
    by_cases hc : v1 = [] ∨ v2 = [] ∨ v1.length ≠ v2.length
    · rw [if_pos hc]; norm_num
    · rw [if_neg hc]
      by_cases hn : Real.sqrt (sumSq v1) = 0 ∨ Real.sqrt (sumSq v2) = 0
      · rw [if_pos hn]; norm_num
      · rw [if_neg hn]
        push_neg at hn
        have hP : 0 < Real.sqrt (sumSq v1) * Real.sqrt (sumSq v2) := by
          have h1 := Real.sqrt_nonneg (sumSq v1)
          have h2 := Real.sqrt_nonneg (sumSq v2)
          exact mul_pos (lt_of_le_of_ne h1 (Ne.symm hn.1)) (lt_of_le_of_ne h2 (Ne.symm hn.2))
        have : |dotList v1 v2 / (Real.sqrt (sumSq v1) * Real.sqrt (sumSq v2))| ≤ 1 := by
          rw [abs_div, abs_of_pos hP]
          exact (div_le_one hP).mpr habs
        exact abs_le.mp this
  refine ⟨rfl, ?_, hbound.1, hbound.2, ?_, ?_⟩
  · by_cases hc : v1 = [] ∨ v2 = [] ∨ v1.length ≠ v2.length
    · have hc' : v2 = [] ∨ v1 = [] ∨ v2.length ≠ v1.length := by
        rcases hc with h | h | h
        · exact Or.inr (Or.inl h)
        · exact Or.inl h
        · exact Or.inr (Or.inr (Ne.symm h))
      rw [cosine_similarity_eq, cosine_similarity_eq, if_pos hc, if_pos hc']
    · have hc' : ¬(v2 = [] ∨ v1 = [] ∨ v2.length ≠ v1.length) := by
        intro h
        rcases h with h | h | h
        · exact hc (Or.inr (Or.inl h))
        · exact hc (Or.inl h)
        · exact hc (Or.inr (Or.inr (Ne.symm h)))
      rw [cosine_similarity_eq, cosine_similarity_eq, if_neg hc, if_neg hc']
      by_cases hn : Real.sqrt (sumSq v1) = 0 ∨ Real.sqrt (sumSq v2) = 0
      · rw [if_pos hn, if_pos hn.symm]
      · rw [if_neg hn, if_neg (fun h => hn h.symm)]
        rw [dotList_comm, mul_comm]
  · intro h1 h2 h3 h4 h5
    rw [cosine_similarity_eq, if_neg (by simp [h1, h2, h3]), if_neg (by simp [h4, h5])]
  · intro h
    rw [cosine_similarity_eq]
    by_cases hc : v1 = [] ∨ v2 = [] ∨ v1.length ≠ v2.length
    · rw [if_pos hc]
    · rw [if_neg hc]
      have hn : Real.sqrt (sumSq v1) = 0 ∨ Real.sqrt (sumSq v2) = 0 := by
        rcases h with h | h | h | h | h
        · exact absurd (Or.inl h) hc
        · exact absurd (Or.inr (Or.inl h)) hc
        · exact absurd (Or.inr (Or.inr h)) hc
        · exact Or.inl h
        · exact Or.inr h
      rw [if_pos hn]

/-- Witness for C9 at the concrete vectors `[1]` and `[1]`, and `[0]`, `[1]`. -/
theorem claim_C9_witness :
    cosine_similarity [(1:ℝ)] [(1:ℝ)] =
      dotList [(1:ℝ)] [(1:ℝ)] / (Real.sqrt (sumSq [(1:ℝ)]) * Real.sqrt (sumSq [(1:ℝ)])) ∧
    cosine_similarity [(0:ℝ)] [(1:ℝ)] = 0 := by
  constructor
  · exact (claim_C9 [(1:ℝ)] [(1:ℝ)]).2.2.2.2.1 (by simp) (by simp) rfl
      (by simp [sumSq]) (by simp [sumSq])
  · exact (claim_C9 [(0:ℝ)] [(1:ℝ)]).2.2.2.2.2 (by simp [sumSq])

/-- C3 counterexample: the candidate `Aa1-aaaa` is not a placeholder, has
length 8, character-class diversity 4 and contains a symbol (`-`), so the
claim's branch (b) would accept it, but `_looks_like_complex_password`
rejects it because `-` is not in the strong-symbol set. -/
theorem claim_C3_counterexample :
    _is_placeholder "Aa1-aaaa" = false ∧
    8 ≤ "Aa1-aaaa".length ∧
    4 ≤ _count_char_groups "Aa1-aaaa" ∧
    "Aa1-aaaa".data.any (fun c => !(isAsciiAlnum c)) = true ∧
    _looks_like_complex_password "Aa1-aaaa" = false := by
  refine ⟨by decide, by decide, by decide, by decide, by decide⟩

/-- C3 (amended): for every candidate string that is not itself a
placeholder, the free-floating password-shape detector accepts it if and
only if its length is at least 8, its character-class diversity is at
least 3, and it contains a symbol from the defined strong-symbol set (the
`diversity ≥ 4 with any symbol` branch of the original claim does not
exist in the code: both branches require a strong symbol). -/
theorem claim_C3_amended (value : String) (h : _is_placeholder value = false) :
    _looks_like_complex_password value = true ↔
      8 ≤ value.length ∧ 3 ≤ _count_char_groups value ∧
      value.data.any isStrongSymbol = true := by
  unfold _looks_like_complex_password
  by_cases hl : value.length < 8
  · have h8 : ¬ 8 ≤ value.length := by omega
    simp [hl, h8]
  · have h8 : 8 ≤ value.length := by omega
    by_cases hs : value.data.any isStrongSymbol = true
    · by_cases h3 : 3 ≤ _count_char_groups value
      · by_cases h4 : 4 ≤ _count_char_groups value <;>
          simp [hl, h, hs, h3, h4, h8]
      · have h4 : ¬ 4 ≤ _count_char_groups value := by omega
        simp [hl, h, hs, h3, h4]
    · simp [hl, h, hs]

/-- Witness for C3 (amended) at the concrete candidate `Aa1!aaaa`. -/
theorem claim_C3_witness :
    _is_placeholder "Aa1!aaaa" = false ∧
    (_looks_like_complex_password "Aa1!aaaa" = true ↔
      8 ≤ "Aa1!aaaa".length ∧ 3 ≤ _count_char_groups "Aa1!aaaa" ∧
      "Aa1!aaaa".data.any isStrongSymbol = true) :=
  ⟨by decide, claim_C3_amended "Aa1!aaaa" (by decide)⟩

/-! ## A backtracking matcher library for the `ai.py` regexes

A `Matcher` is applied at one position of the text. `lrev` is the reversed
text to the left of that position (needed by `\b` and the lookarounds); the
second argument is the text from the position on. The result lists every
length the pattern can match there, in backtracking-priority order, so its
head is exactly the match Python's `re` engine would produce at that
position. All quantifiers in the source regexes apply to single-character
classes, which keeps the combinators simple and total. -/

def Matcher : Type := List Char → List Char → List Nat

/-- Single character of a class. -/
def mChar (p : Char → Bool) : Matcher := fun _ s =>
  match s with
  | c :: _ => if p c then [1] else []
  | [] => []

/-- Literal word. -/
def mLit (w : List Char) : Matcher := fun _ s =>
  if w.isPrefixOf s then [w.length] else []

/-- Case-insensitive prefix test (ASCII, as used with `re.I`). -/
def isPrefixOfCI : List Char → List Char → Bool
  | [], _ => true
  | _ :: _, [] => false
  | a :: as, b :: bs => (charLower a == charLower b) && isPrefixOfCI as bs

/-- Case-insensitive literal word (for the `re.I` patterns). -/
def mLitCI (w : List Char) : Matcher := fun _ s =>
  if isPrefixOfCI w s then [w.length] else []

/-- Concatenation, with full backtracking across the seam. -/
def mSeq (m1 m2 : Matcher) : Matcher := fun lrev s =>
  (m1 lrev s).flatMap (fun l1 =>
    (m2 ((s.take l1).reverse ++ lrev) (s.drop l1)).map (fun l2 => l1 + l2))

/-- Alternation, in the written order. -/
def mAlt (m1 m2 : Matcher) : Matcher := fun lrev s => m1 lrev s ++ m2 lrev s

/-- Alternation over a list of branches, in order. -/
def mAlts (ms : List Matcher) : Matcher := fun lrev s => ms.flatMap (fun m => m lrev s)

/-- Greedy optional group (`(?:...)?`). -/
def mOpt (m : Matcher) : Matcher := fun lrev s => m lrev s ++ [0]

/-- Length of the maximal leading run of characters of a class. -/
def countLeading (p : Char → Bool) : List Char → Nat
  | [] => 0
  | c :: cs => if p c then 1 + countLeading p cs else 0

/-- The descending list `[hi, hi-1, ..., lo]` (empty when `hi < lo`). -/
def descRange (hi lo : Nat) : List Nat :=
  if hi < lo then [] else (List.range (hi - lo + 1)).map (fun i => hi - i)

/-- Greedy repetition of a single-character class: `{lo,}` when `hi = none`,
`{lo,hi}` otherwise (`?` is `{0,1}`, `+` is `{1,}`, `*` is `{0,}`). -/
def mRep (p : Char → Bool) (lo : Nat) (hi : Option Nat) : Matcher := fun _ s =>
  let k := countLeading p s
  let k2 := match hi with
    | none => k
    | some h => min k h
  descRange k2 lo

def isWordOpt : Option Char → Bool
  | some c => isWordChar c
  | none => false

/-- `\b`: a word boundary between the left context and what follows. -/
def mWordB : Matcher := fun lrev s =>
  if isWordOpt lrev.head? != isWordOpt s.head? then [0] else []

/-- `(?<!\w)`: the previous character, if any, is not a word character. -/
def mNoWordBehind : Matcher := fun lrev _ => if isWordOpt lrev.head? then [] else [0]

/-- `(?!\w)`: the next character, if any, is not a word character. -/
def mNoWordAhead : Matcher := fun _ s => if isWordOpt s.head? then [] else [0]

/-! ## The `ai.py` regexes as matchers -/

def notSpace (c : Char) : Bool := !(isSpaceChar c)

/-- `[\w.\-]`. -/
def isEmailChar (c : Char) : Bool := isWordChar c || c = '.' || c = '-'

/-- `EMAIL_PATTERN = [\w.\-]+@[\w.\-]+\.\w+`. -/
def EMAIL_PATTERN : Matcher :=
  mSeq (mRep isEmailChar 1 none)
    (mSeq (mChar (fun c => c = '@'))
      (mSeq (mRep isEmailChar 1 none)
        (mSeq (mChar (fun c => c = '.')) (mRep isWordChar 1 none))))

/-- `[\s.-]`. -/
def isSepChar (c : Char) : Bool := isSpaceChar c || c = '.' || c = '-'

/-- `\+?\d{1,3}[\s.-]?`, the optional country-code prefix of the phone pattern. -/
def phonePrefix : Matcher :=
  mSeq (mRep (fun c => c = '+') 0 (some 1))
    (mSeq (mRep isAsciiDigit 1 (some 3)) (mRep isSepChar 0 (some 1)))

/-- `1[3-9]\d{9}`. -/
def phoneAlt1 : Matcher :=
  mSeq (mChar (fun c => c = '1'))
    (mSeq (mChar (fun c => '3' ≤ c && c ≤ '9')) (mRep isAsciiDigit 9 (some 9)))

/-- `\(?\d{2,4}\)?[\s.-]?\d{3,4}[\s.-]?\d{4}`. -/
def phoneAlt2 : Matcher :=
  mSeq (mRep (fun c => c = '(') 0 (some 1))
    (mSeq (mRep isAsciiDigit 2 (some 4))
      (mSeq (mRep (fun c => c = ')') 0 (some 1))
        (mSeq (mRep isSepChar 0 (some 1))
          (mSeq (mRep isAsciiDigit 3 (some 4))
            (mSeq (mRep isSepChar 0 (some 1)) (mRep isAsciiDigit 4 (some 4)))))))

/-- `PHONE_PATTERN = (?<!\w)(?:\+?\d{1,3}[\s.-]?)?(?:1[3-9]\d{9}|\(?\d{2,4}\)?[\s.-]?\d{3,4}[\s.-]?\d{4})(?!\w)`. -/
def PHONE_PATTERN : Matcher :=
  mSeq mNoWordBehind
    (mSeq (mOpt phonePrefix) (mSeq (mAlt phoneAlt1 phoneAlt2) mNoWordAhead))

/-- `URL_PATTERN = https?://\S+`. -/
def URL_PATTERN : Matcher :=
  mSeq (mLit "http".data)
    (mSeq (mRep (fun c => c = 's') 0 (some 1))
      (mSeq (mLit "://".data) (mRep notSpace 1 none)))

/-- `[a-zA-Z0-9_-]`, the base64url class of the JWT and Google-key patterns. -/
def isB64UrlChar (c : Char) : Bool := isAsciiAlnum c || c = '_' || c = '-'

/-- `JWT_PATTERN = \beyJ[a-zA-Z0-9_-]+\.[a-zA-Z0-9_-]+\.[a-zA-Z0-9_-]+\b`. -/
def JWT_PATTERN : Matcher :=
  mSeq mWordB
    (mSeq (mLit "eyJ".data)
      (mSeq (mRep isB64UrlChar 1 none)
        (mSeq (mChar (fun c => c = '.'))
          (mSeq (mRep isB64UrlChar 1 none)
            (mSeq (mChar (fun c => c = '.'))
              (mSeq (mRep isB64UrlChar 1 none) mWordB))))))

/-- `[0-9A-Z]`. -/
def isUpperDigit (c : Char) : Bool := isAsciiDigit c || isAsciiUpper c

/-- `AWS_ACCESS_KEY_PATTERN = \b(?:AKIA|ASIA)[0-9A-Z]{16}\b`. -/
def AWS_ACCESS_KEY_PATTERN : Matcher :=
  mSeq mWordB
    (mSeq (mAlt (mLit "AKIA".data) (mLit "ASIA".data))
      (mSeq (mRep isUpperDigit 16 (some 16)) mWordB))

/-- `GOOGLE_API_KEY_PATTERN = \bAIza[0-9A-Za-z_-]{35}\b`. -/
def GOOGLE_API_KEY_PATTERN : Matcher :=
  mSeq mWordB
    (mSeq (mLit "AIza".data) (mSeq (mRep isB64UrlChar 35 (some 35)) mWordB))

/-- `[A-Za-z0-9-]`. -/
def isSlackChar (c : Char) : Bool := isAsciiAlnum c || c = '-'

/-- `SLACK_TOKEN_PATTERN = \bxox[baprs]-[A-Za-z0-9-]{10,}\b`. -/
def SLACK_TOKEN_PATTERN : Matcher :=
  mSeq mWordB
    (mSeq (mLit "xox".data)
      (mSeq (mChar (fun c => c = 'b' || c = 'a' || c = 'p' || c = 'r' || c = 's'))
        (mSeq (mChar (fun c => c = '-')) (mSeq (mRep isSlackChar 10 none) mWordB))))

/-- `GITHUB_TOKEN_PATTERN = \bgh[opsu]_[A-Za-z0-9]{36,}\b`. -/
def GITHUB_TOKEN_PATTERN : Matcher :=
  mSeq mWordB
    (mSeq (mLit "gh".data)
      (mSeq (mChar (fun c => c = 'o' || c = 'p' || c = 's' || c = 'u'))
        (mSeq (mChar (fun c => c = '_')) (mSeq (mRep isAsciiAlnum 36 none) mWordB))))

/-- `STRIPE_KEY_PATTERN = \bsk_(?:live|test)_[0-9a-zA-Z]{24,}\b`. -/
def STRIPE_KEY_PATTERN : Matcher :=
  mSeq mWordB
    (mSeq (mLit "sk_".data)
      (mSeq (mAlt (mLit "live".data) (mLit "test".data))
        (mSeq (mChar (fun c => c = '_')) (mSeq (mRep isAsciiAlnum 24 none) mWordB))))

/-- The label words of `LABELLED_SECRET_PATTERN`, in alternation order. -/
def labelWords : List (List Char) :=
  ["password".data, "passwd".data, "pwd".data, "token".data, "key".data,
   "secret".data, "api_key".data, "credential".data]

/-- `LABELLED_SECRET_PATTERN = (password|passwd|pwd|token|key|secret|api_key|credential)\s*[:=]\s*\S+` with `re.I`. -/
def LABELLED_SECRET_PATTERN : Matcher :=
  mSeq (mAlts (labelWords.map mLitCI))
    (mSeq (mRep isSpaceChar 0 none)
      (mSeq (mChar (fun c => c = ':' || c = '='))
        (mSeq (mRep isSpaceChar 0 none) (mRep notSpace 1 none))))

/-- The keyword alternatives of `INLINE_SECRET_PATTERN`, in order. -/
def inlineWords : List (List Char) :=
  ["password".data, "token".data, "key".data, "secret".data, "pwd".data]

/-- `INLINE_SECRET_PATTERN = (password|token|key|secret|pwd)\s+\S+` with `re.I`. -/
def INLINE_SECRET_PATTERN : Matcher :=
  mSeq (mAlts (inlineWords.map mLitCI))
    (mSeq (mRep isSpaceChar 1 none) (mRep notSpace 1 none))

/-- `\.\d{1,3}`, one octet tail of the IP pattern. -/
def dotDigits : Matcher := mSeq (mChar (fun c => c = '.')) (mRep isAsciiDigit 1 (some 3))

/-- `IP_PATTERN = \b\d{1,3}(?:\.\d{1,3}){3}\b`. -/
def IP_PATTERN : Matcher :=
  mSeq mWordB
    (mSeq (mRep isAsciiDigit 1 (some 3))
      (mSeq dotDigits (mSeq dotDigits (mSeq dotDigits mWordB))))

/-- `[A-Za-z0-9_+/=\-]`, the class of `TOKEN_CANDIDATE_PATTERN`. -/
def isTokenChar (c : Char) : Bool :=
  isAsciiAlnum c || c = '_' || c = '+' || c = '/' || c = '=' || c = '-'

/-- `TOKEN_CANDIDATE_PATTERN = [A-Za-z0-9_+/=\-]{16,}`. -/
def TOKEN_CANDIDATE_PATTERN : Matcher := mRep isTokenChar 16 none

/-- The class of `PASSWORD_CANDIDATE_PATTERN`: alphanumerics, the
strong symbols, underscore and hyphen. -/
def isPasswordChar (c : Char) : Bool :=
  isAsciiAlnum c || isStrongSymbol c || c = '_' || c = '-'

/-- `PASSWORD_CANDIDATE_PATTERN = [A-Za-z0-9!@#$%^&*()_+=\-...]{8,}`. -/
def PASSWORD_CANDIDATE_PATTERN : Matcher := mRep isPasswordChar 8 none

/-- `SENSITIVE_PATTERNS`, in the order of `ai.py`. -/
def SENSITIVE_PATTERNS : List Matcher :=
  [LABELLED_SECRET_PATTERN, INLINE_SECRET_PATTERN, IP_PATTERN, EMAIL_PATTERN,
   PHONE_PATTERN, URL_PATTERN, JWT_PATTERN, AWS_ACCESS_KEY_PATTERN,
   GOOGLE_API_KEY_PATTERN, SLACK_TOKEN_PATTERN, GITHUB_TOKEN_PATTERN,
   STRIPE_KEY_PATTERN]

/-! ## Scanning: `finditer`, `search`, `sub` -/

/-- First match of a matcher scanning left to right from the current
position: `some (offset, length)` of the leftmost match, preferring the
backtracking-first length at each position, exactly as `re` does. -/
def firstMatchFrom (m : Matcher) : List Char → List Char → Option (Nat × Nat)
  | lrev, [] =>
    match (m lrev []).head? with
    | some l => some (0, l)
    | none => none
  | lrev, c :: cs =>
    match (m lrev (c :: cs)).head? with
    | some l => some (0, l)
    | none => (firstMatchFrom m (c :: lrev) cs).map (fun p => (p.1 + 1, p.2))

/-- Successive non-overlapping matches, each scan resuming at the end of
the previous match (all the patterns here match at least one character;
the `max len 1` guard only documents that the scan always advances). -/
def finditerAux (m : Matcher) : Nat → List Char → List Char → List (Nat × Nat)
  | 0, _, _ => []
  | fuel + 1, lrev, s =>
    match firstMatchFrom m lrev s with
    | none => []
    | some (start, len) =>
      let adv := start + max len 1
      (start, len) ::
        (finditerAux m fuel ((s.take adv).reverse ++ lrev) (s.drop adv)).map
          (fun p => (p.1 + adv, p.2))

/-- `pattern.finditer(text)`: the list of `(start, length)` spans. -/
def finditer (m : Matcher) (s : List Char) : List (Nat × Nat) :=
  finditerAux m (s.length + 1) [] s

/-- `pattern.search(text) is not None`. -/
def patternSearch (m : Matcher) (s : List Char) : Bool :=
  (firstMatchFrom m [] s).isSome

/-- `text[start : start + len]`. -/
def sliceStr (s : List Char) (start len : Nat) : List Char := (s.drop start).take len

/-! ## The anonymization pipeline (`ai.py`) -/

/-- `_new_placeholder`: draw `ANON_` + the next hex value from the supply
until the placeholder is not yet a mapping key, then record it. The
mapping is the insertion-ordered `dict`; `next` is the supply position.
The fuel bounds the `while True` loop; with a fresh supply value available
within `fuel` draws the bound is never hit (the fuel-exhausted base case
records the last draw so that the function totalizes). -/
def _new_placeholder (supply : Nat → String) :
    Nat → List (String × String) → Nat → String → String × List (String × String) × Nat
  | 0, mapping, next, original =>
    let placeholder := "ANON_" ++ supply next
    (placeholder, mapping ++ [(placeholder, original)], next + 1)
  | fuel + 1, mapping, next, original =>
    let placeholder := "ANON_" ++ supply next
    if (mapping.map Prod.fst).contains placeholder then
      _new_placeholder supply fuel mapping (next + 1) original
    else
      (placeholder, mapping ++ [(placeholder, original)], next + 1)

/-- The body of `pattern.sub(replace_match, text)` inside
`anonymize_sensitive_data`: walk the matches, keep the text between them,
return placeholder-shaped matches unchanged, and replace every other
match with a fresh placeholder recorded in the mapping. -/
def subMatches (supply : Nat → String) (text : List Char) :
    List (Nat × Nat) → Nat → List (String × String) → Nat →
    List Char × List (String × String) × Nat
  | [], pos, mapping, next => (text.drop pos, mapping, next)
  | (start, len) :: rest, pos, mapping, next =>
    let original := sliceStr text start len
    if isPlaceholderL original then
      let r := subMatches supply text rest (start + len) mapping next
      (sliceStr text pos (start - pos) ++ original ++ r.1, r.2)
    else
      let n := _new_placeholder supply (mapping.length + 1) mapping next (String.mk original)
      let r := subMatches supply text rest (start + len) n.2.1 n.2.2
      (sliceStr text pos (start - pos) ++ n.1.data ++ r.1, r.2)

/-- One `pattern.sub(replace_match, anonymized)` stage. -/
def patternSub (supply : Nat → String) (m : Matcher) (text : List Char)
    (mapping : List (String × String)) (next : Nat) :
    List Char × List (String × String) × Nat :=
  subMatches supply text (finditer m text) 0 mapping next

/-- `_replace_candidates`: walk the matches of `pattern.finditer(text)`;
candidates rejected by the predicate are left in place (`last_index` is
not advanced), accepted ones are replaced by fresh placeholders. When no
candidate is accepted the original text is returned unchanged, as in the
`if not parts` early return. -/
def replaceCandidatesAux (supply : Nat → String) (text : List Char) (pred : String → Bool) :
    List (Nat × Nat) → Nat → List (String × String) → Nat →
    List Char × List (String × String) × Nat
  | [], pos, mapping, next => (text.drop pos, mapping, next)
  | (start, len) :: rest, pos, mapping, next =>
    let candidate := String.mk (sliceStr text start len)
    if pred candidate then
      let n := _new_placeholder supply (mapping.length + 1) mapping next candidate
      let r := replaceCandidatesAux supply text pred rest (start + len) n.2.1 n.2.2
      (sliceStr text pos (start - pos) ++ n.1.data ++ r.1, r.2)
    else
      replaceCandidatesAux supply text pred rest pos mapping next

/-- `_replace_candidates(text, pattern, predicate, mapping)` from `ai.py`. -/
def _replace_candidates (supply : Nat → String) (m : Matcher) (pred : String → Bool)
    (text : List Char) (mapping : List (String × String)) (next : Nat) :
    List Char × List (String × String) × Nat :=
  replaceCandidatesAux supply text pred (finditer m text) 0 mapping next

/-- `_contains_candidate(text, pattern, predicate)` from `ai.py`. -/
def _contains_candidate (m : Matcher) (pred : String → Bool) (s : List Char) : Bool :=
  (finditer m s).any (fun pr => pred (String.mk (sliceStr s pr.1 pr.2)))

/-! ## `_looks_like_token` -/

/-- `[a-fA-F0-9]`. -/
def isHexAny (c : Char) : Bool :=
  isAsciiDigit c || ('a' ≤ c && c ≤ 'f') || ('A' ≤ c && c ≤ 'F')

/-- `[A-Za-z0-9+/]`, the base64 body class. -/
def isB64Char (c : Char) : Bool := isAsciiAlnum c || c = '+' || c = '/'

/-- `HEX_TOKEN_PATTERN.fullmatch(value)`: at least 32 chars, all hex. -/
def hexTokenFull (s : List Char) : Bool := 32 ≤ s.length && s.all isHexAny

/-- `BASE64_TOKEN_PATTERN.fullmatch(value)`: a base64 body of at least 24
characters followed by at most two `=` padding characters (the body class
cannot contain `=`, so the padding is exactly the trailing run of `=`). -/
def base64Full (s : List Char) : Bool :=
  let pads := countLeading (fun c => c = '=') s.reverse
  pads ≤ 2 && 24 ≤ s.length - pads && (s.take (s.length - pads)).all isB64Char

def isAsciiLetter (c : Char) : Bool := isAsciiLower c || isAsciiUpper c

/-- `_looks_like_token` from `ai.py`. -/
def _looks_like_token (value : String) : Bool :=
  if _is_placeholder value then false
  else if hexTokenFull value.data then true
  else if base64Full value.data then true
  else if value.length < 20 then false
  else if value.data.any isAsciiLetter && value.data.any isAsciiDigit then true
  else if value.data.any isAsciiLetter &&
      value.data.any (fun c => c = '+' || c = '/' || c = '=' || c = '_' || c = '-') then true
  else false

/-! ## `anonymize_sensitive_data`, `restore_sensitive_data`, `detect_sensitive` -/

/-- The `for pattern in SENSITIVE_PATTERNS` loop of `anonymize_sensitive_data`. -/
def anonymizeStages (supply : Nat → String) :
    List Matcher → List Char → List (String × String) → Nat →
    List Char × List (String × String) × Nat
  | [], text, mapping, next => (text, mapping, next)
  | m :: ms, text, mapping, next =>
    let r := patternSub supply m text mapping next
    anonymizeStages supply ms r.1 r.2.1 r.2.2

/-- State after the twelve regex stages of `anonymize_sensitive_data`. -/
def anonymizeStagesResult (supply : Nat → String) (text : String) :
    List Char × List (String × String) × Nat :=
  anonymizeStages supply SENSITIVE_PATTERNS text.data [] 0

/-- State after the password-candidate stage of `anonymize_sensitive_data`. -/
def anonymizePassResult (supply : Nat → String) (text : String) :
    List Char × List (String × String) × Nat :=
  _replace_candidates supply PASSWORD_CANDIDATE_PATTERN _looks_like_complex_password
    (anonymizeStagesResult supply text).1 (anonymizeStagesResult supply text).2.1
    (anonymizeStagesResult supply text).2.2

/-- State after the token-candidate stage of `anonymize_sensitive_data`. -/
def anonymizeTokResult (supply : Nat → String) (text : String) :
    List Char × List (String × String) × Nat :=
  _replace_candidates supply TOKEN_CANDIDATE_PATTERN _looks_like_token
    (anonymizePassResult supply text).1 (anonymizePassResult supply text).2.1
    (anonymizePassResult supply text).2.2

/-- `anonymize_sensitive_data(text)`: the twelve regex stages, then the
password-candidate stage, then the token-candidate stage. Returns the
anonymized text and the insertion-ordered mapping. -/
def anonymize_sensitive_data (supply : Nat → String) (text : String) :
    String × List (String × String) :=
  (String.mk (anonymizeTokResult supply text).1, (anonymizeTokResult supply text).2.1)

/-- Python `str.replace(old, new)`: replace every non-overlapping
occurrence, scanning left to right. The fuel is the input length; each
step consumes at least one character when `old` is non-empty (mapping
keys always start with `ANON_`, so `old` is never empty here). -/
def replaceAllAux (old new : List Char) : Nat → List Char → List Char
  | 0, s => s
  | fuel + 1, s =>
    match s with
    | [] => []
    | c :: cs =>
      if old.isPrefixOf s && !old.isEmpty then
        new ++ replaceAllAux old new fuel (s.drop old.length)
      else
        c :: replaceAllAux old new fuel cs

/-- Python `str.replace` on `String`. -/
def strReplace (s old new : String) : String :=
  String.mk (replaceAllAux old.data new.data s.data.length s.data)

/-- `restore_sensitive_data(text, mapping)` from `ai.py`: substitute the
placeholders back in mapping (insertion) order. -/
def restore_sensitive_data (text : String) (mapping : List (String × String)) : String :=
  mapping.foldl (fun restored kv => strReplace restored kv.1 kv.2) text

/-- `detect_sensitive(text)` from `ai.py`. -/
def detect_sensitive (text : String) : Bool :=
  SENSITIVE_PATTERNS.any (fun m => patternSearch m text.data) ||
  _contains_candidate PASSWORD_CANDIDATE_PATTERN _looks_like_complex_password text.data ||
  _contains_candidate TOKEN_CANDIDATE_PATTERN _looks_like_token text.data

/-! ## Generic facts about the pipeline -/

/-- A deterministic supply of distinct hex strings, used for the concrete
evaluations: `supply0 i = "0000000" ++ digit i` for `i < 10`. -/
def supply0 : Nat → String := fun i =>
  String.mk (List.replicate 7 '0' ++ [Char.ofNat (48 + i % 10)])

theorem String_mk_data (s : String) : String.mk s.data = s := rfl

theorem patternSearch_false_iff (m : Matcher) (s : List Char) :
    patternSearch m s = false ↔ firstMatchFrom m [] s = none := by
  cases h : firstMatchFrom m [] s <;> simp [patternSearch, h]

theorem finditer_eq_nil (m : Matcher) (s : List Char)
    (h : firstMatchFrom m [] s = none) : finditer m s = [] := by
  simp [finditer, finditerAux, h]

theorem patternSub_of_finditer_nil (supply : Nat → String) (m : Matcher)
    (text : List Char) (mp : List (String × String)) (nx : Nat)
    (h : finditer m text = []) : patternSub supply m text mp nx = (text, mp, nx) := by
  simp [patternSub, h, subMatches]

theorem anonymizeStages_of_no_match (supply : Nat → String) (ms : List Matcher)
    (text : List Char) (mp : List (String × String)) (nx : Nat)
    (h : ∀ m ∈ ms, finditer m text = []) :
    anonymizeStages supply ms text mp nx = (text, mp, nx) := by
  induction ms with
  | nil => rfl
  | cons m rest ih =>
    have h1 : finditer m text = [] := h m (by simp)
    simp only [anonymizeStages, patternSub_of_finditer_nil supply m text mp nx h1]
    exact ih (fun m2 hm2 => h m2 (by simp [hm2]))

theorem replaceCandidatesAux_of_all_rejected (supply : Nat → String) (text : List Char)
    (pred : String → Bool) (spans : List (Nat × Nat))
    (h : ∀ pr ∈ spans, pred (String.mk (sliceStr text pr.1 pr.2)) = false) :
    ∀ pos mp nx, replaceCandidatesAux supply text pred spans pos mp nx = (text.drop pos, mp, nx) := by
  induction spans with
  | nil => intro pos mp nx; rfl
  | cons pr rest ih =>
    intro pos mp nx
    obtain ⟨start, len⟩ := pr
    have h1 : pred (String.mk (sliceStr text start len)) = false := h (start, len) (by simp)
    simp only [replaceCandidatesAux, h1, Bool.false_eq_true, if_false]
    exact ih (fun pr2 hpr2 => h pr2 (by simp [hpr2])) pos mp nx

theorem _replace_candidates_of_not_contains (supply : Nat → String) (m : Matcher)
    (pred : String → Bool) (text : List Char) (mp : List (String × String)) (nx : Nat)
    (h : _contains_candidate m pred text = false) :
    _replace_candidates supply m pred text mp nx = (text, mp, nx) := by
  have hall : ∀ pr ∈ finditer m text, pred (String.mk (sliceStr text pr.1 pr.2)) = false := by
    intro pr hpr
    cases hb : pred (String.mk (sliceStr text pr.1 pr.2)) with
    | false => rfl
    | true =>
      have htrue : _contains_candidate m pred text = true := by
        unfold _contains_candidate
        exact List.any_eq_true.mpr ⟨pr, hpr, hb⟩
      rw [htrue] at h
      exact absurd h (by simp)
  rw [_replace_candidates,
    replaceCandidatesAux_of_all_rejected supply text pred (finditer m text) hall 0 mp nx]
  simp

/-- If no detector fires, the whole pipeline leaves the text unchanged
with an empty mapping. -/
theorem anonymize_of_not_detect (supply : Nat → String) (text : String)
    (h : detect_sensitive text = false) :
    anonymize_sensitive_data supply text = (text, []) := by
  have h3 := h
  unfold detect_sensitive at h3
  rw [Bool.or_eq_false_iff, Bool.or_eq_false_iff] at h3
  obtain ⟨⟨hA, hB⟩, hC⟩ := h3
  have hfind : ∀ m ∈ SENSITIVE_PATTERNS, finditer m text.data = [] := by
    intro m hm
    have h4 := List.any_eq_false.mp hA m hm
    have h5 : patternSearch m text.data = false := by simpa using h4
    exact finditer_eq_nil m text.data ((patternSearch_false_iff m text.data).mp h5)
  have hstages := anonymizeStages_of_no_match supply SENSITIVE_PATTERNS text.data [] 0 hfind
  have hpass := _replace_candidates_of_not_contains supply PASSWORD_CANDIDATE_PATTERN
    _looks_like_complex_password text.data [] 0 hB
  have htok := _replace_candidates_of_not_contains supply TOKEN_CANDIDATE_PATTERN
    _looks_like_token text.data [] 0 hC
  simp only [anonymize_sensitive_data, anonymizeTokResult, anonymizePassResult,
    anonymizeStagesResult, hstages, hpass, htok, String_mk_data]

/-- C2: if no detector in the chain matches anything in `T`
(`detect_sensitive T = false`), then `anonymize_sensitive_data` returns
`T` unchanged with an empty mapping, and restoring the returned text with
the returned mapping yields `T`. -/
theorem claim_C2 (supply : Nat → String) (text : String)
    (h : detect_sensitive text = false) :
    anonymize_sensitive_data supply text = (text, []) ∧
    restore_sensitive_data (anonymize_sensitive_data supply text).1
      (anonymize_sensitive_data supply text).2 = text := by
  have h1 := anonymize_of_not_detect supply text h
  refine ⟨h1, ?_⟩
  rw [h1]
  rfl

/-- Witness for C2 at the sensitive-free text `the quick brown fox`. -/
theorem claim_C2_witness :
    detect_sensitive "the quick brown fox" = false ∧
    anonymize_sensitive_data supply0 "the quick brown fox" = ("the quick brown fox", []) :=
  ⟨by decide, (claim_C2 supply0 "the quick brown fox" (by decide)).1⟩

/-- C1: evaluation of the code at the failing input `key pwd:a`. The
labelled-secret detector records `pwd:a`; the inline-secret detector then
matches `key ANON_00000000`, so the second recorded original contains the
first placeholder. `restore_sensitive_data` substitutes in insertion
order, so the inner placeholder is exposed only after its own pass and the
round trip returns `key ANON_00000000` instead of `key pwd:a`. -/
theorem claim_C1 :
    detect_sensitive "key pwd:a" = true ∧
    anonymize_sensitive_data supply0 "key pwd:a" =
      ("ANON_00000001",
        [("ANON_00000000", "pwd:a"), ("ANON_00000001", "key ANON_00000000")]) ∧
    "pwd:a" ∈ (anonymize_sensitive_data supply0 "key pwd:a").2.map Prod.snd ∧
    restore_sensitive_data (anonymize_sensitive_data supply0 "key pwd:a").1
      (anonymize_sensitive_data supply0 "key pwd:a").2 = "key ANON_00000000" ∧
    restore_sensitive_data (anonymize_sensitive_data supply0 "key pwd:a").1
      (anonymize_sensitive_data supply0 "key pwd:a").2 ≠ "key pwd:a" := by
  refine ⟨by rfl, by rfl, by decide, by rfl, by decide⟩

/-! ## Restore: occurrence tests and idempotence -/

/-- Python `old in s` (substring occurrence), on character lists. -/
def occursInL (old : List Char) : List Char → Bool
  | [] => old.isEmpty
  | c :: cs => old.isPrefixOf (c :: cs) || occursInL old cs

theorem replaceAllAux_of_not_occurs (old new : List Char) (s : List Char)
    (h : occursInL old s = false) :
    ∀ fuel, replaceAllAux old new fuel s = s := by
  induction s with
  | nil =>
    intro fuel
    cases fuel <;> rfl
  | cons c cs ih =>
    intro fuel
    have h2 : old.isPrefixOf (c :: cs) = false ∧ occursInL old cs = false := by
      have := h
      unfold occursInL at this
      exact Bool.or_eq_false_iff.mp this
    cases fuel with
    | zero => rfl
    | succ fuel =>
      unfold replaceAllAux
      rw [h2.1]
      simp only [Bool.false_and, Bool.false_eq_true, if_false]
      rw [ih h2.2 fuel]

theorem strReplace_of_not_occurs (s old new : String)
    (h : occursInL old.data s.data = false) : strReplace s old new = s := by
  unfold strReplace
  rw [replaceAllAux_of_not_occurs old.data new.data s.data h]

/-- If no mapping key occurs in a text, `restore_sensitive_data` leaves it
unchanged. -/
theorem restore_of_no_occurrence (t : String) (mapping : List (String × String))
    (h : ∀ kv ∈ mapping, occursInL kv.1.data t.data = false) :
    restore_sensitive_data t mapping = t := by
  induction mapping with
  | nil => rfl
  | cons kv rest ih =>
    unfold restore_sensitive_data
    simp only [List.foldl_cons]
    rw [strReplace_of_not_occurs t kv.1 kv.2 (h kv (by simp))]
    exact ih (fun kv2 hkv2 => h kv2 (by simp [hkv2]))

/-- C6 counterexample: with the mapping produced by anonymizing
`pwd=ANON_0000` (a single entry `ANON_00000000 ↦ pwd=ANON_0000`), the text
`ANON_000000000000` restores once to `pwd=ANON_00000000` — the substituted
value and the following characters combine into a new placeholder
occurrence — and a second restore changes it again, so restore applied
twice differs from restore applied once. -/
theorem claim_C6_counterexample :
    (anonymize_sensitive_data supply0 "pwd=ANON_0000").2 =
      [("ANON_00000000", "pwd=ANON_0000")] ∧
    restore_sensitive_data (restore_sensitive_data "ANON_000000000000"
        (anonymize_sensitive_data supply0 "pwd=ANON_0000").2)
      (anonymize_sensitive_data supply0 "pwd=ANON_0000").2 ≠
    restore_sensitive_data "ANON_000000000000"
      (anonymize_sensitive_data supply0 "pwd=ANON_0000").2 := by
  refine ⟨by rfl, by decide⟩

/-- C6 (amended): for a mapping `M` produced by an anonymize call and any
text `T`, if the once-restored text contains no placeholder key of `M`,
then a second restore with `M` is a no-op; without that condition a later
substitution can create a new occurrence of an earlier key (or expose one
recorded inside another original) and a second restore differs. -/
theorem claim_C6_amended (supply : Nat → String) (t0 text : String)
    (h : ∀ kv ∈ (anonymize_sensitive_data supply t0).2,
      occursInL kv.1.data
        (restore_sensitive_data text (anonymize_sensitive_data supply t0).2).data = false) :
    restore_sensitive_data
        (restore_sensitive_data text (anonymize_sensitive_data supply t0).2)
        (anonymize_sensitive_data supply t0).2 =
      restore_sensitive_data text (anonymize_sensitive_data supply t0).2 :=
  restore_of_no_occurrence _ _ h

/-- Witness for C6 (amended): the mapping from anonymizing `pwd=a`, with
the text `hello`, in which no placeholder occurs. -/
theorem claim_C6_witness :
    restore_sensitive_data
        (restore_sensitive_data "hello" (anonymize_sensitive_data supply0 "pwd=a").2)
        (anonymize_sensitive_data supply0 "pwd=a").2 =
      restore_sensitive_data "hello" (anonymize_sensitive_data supply0 "pwd=a").2 :=
  claim_C6_amended supply0 "pwd=a" "hello" (by decide)

/-! ## Membership facts about the matcher combinators -/

theorem mem_mChar {p : Char → Bool} {lrev s : List Char} {n : Nat}
    (h : n ∈ mChar p lrev s) : n = 1 ∧ ∃ c t, s = c :: t ∧ p c = true := by
  cases s with
  | nil => simp [mChar] at h
  | cons c t =>
    by_cases hp : p c
    · simp [mChar, hp] at h
      exact ⟨h, c, t, rfl, hp⟩
    · simp [mChar, hp] at h

theorem mem_mLit {w : List Char} {lrev s : List Char} {n : Nat}
    (h : n ∈ mLit w lrev s) : w.isPrefixOf s = true ∧ n = w.length := by
  by_cases hw : w.isPrefixOf s <;> simp [mLit, hw] at h
  exact ⟨hw, h⟩

theorem mem_mLitCI {w : List Char} {lrev s : List Char} {n : Nat}
    (h : n ∈ mLitCI w lrev s) : isPrefixOfCI w s = true ∧ n = w.length := by
  by_cases hw : isPrefixOfCI w s <;> simp [mLitCI, hw] at h
  exact ⟨hw, h⟩

theorem mem_mSeq {m1 m2 : Matcher} {lrev s : List Char} {n : Nat}
    (h : n ∈ mSeq m1 m2 lrev s) :
    ∃ l1 l2, l1 ∈ m1 lrev s ∧ l2 ∈ m2 ((s.take l1).reverse ++ lrev) (s.drop l1) ∧
      n = l1 + l2 := by
  rcases List.mem_flatMap.mp h with ⟨l1, h1, h2⟩
  rcases List.mem_map.mp h2 with ⟨l2, h3, h4⟩
  exact ⟨l1, l2, h1, h3, h4.symm⟩

theorem mem_mAlt {m1 m2 : Matcher} {lrev s : List Char} {n : Nat}
    (h : n ∈ mAlt m1 m2 lrev s) : n ∈ m1 lrev s ∨ n ∈ m2 lrev s := by
  simpa [mAlt] using h

theorem mem_mAlts {ms : List Matcher} {lrev s : List Char} {n : Nat}
    (h : n ∈ mAlts ms lrev s) : ∃ m ∈ ms, n ∈ m lrev s := by
  simpa [mAlts] using List.mem_flatMap.mp h

theorem mem_mOpt {m : Matcher} {lrev s : List Char} {n : Nat}
    (h : n ∈ mOpt m lrev s) : n ∈ m lrev s ∨ n = 0 := by
  simpa [mOpt] using h

theorem mem_descRange {hi lo n : Nat} (h : n ∈ descRange hi lo) : lo ≤ n ∧ n ≤ hi := by
  unfold descRange at h
  by_cases hc : hi < lo
  · simp [hc] at h
  · simp only [hc, if_false, List.mem_map, List.mem_range] at h
    rcases h with ⟨i, hi2, rfl⟩
    omega

theorem mem_mRep {p : Char → Bool} {lo : Nat} {hi : Option Nat} {lrev s : List Char} {n : Nat}
    (h : n ∈ mRep p lo hi lrev s) :
    lo ≤ n ∧ n ≤ countLeading p s ∧ ∀ b, hi = some b → n ≤ b := by
  cases hi with
  | none =>
    simp only [mRep] at h
    have := mem_descRange h
    exact ⟨this.1, this.2, by intro b hb; cases hb⟩
  | some b =>
    simp only [mRep] at h
    have := mem_descRange h
    refine ⟨this.1, by omega, ?_⟩
    intro b2 hb2
    cases hb2
    omega

theorem mem_mWordB {lrev s : List Char} {n : Nat} (h : n ∈ mWordB lrev s) : n = 0 := by
  unfold mWordB at h
  by_cases hc : (isWordOpt lrev.head? != isWordOpt s.head?) = true <;> simp [hc] at h
  exact h

theorem mem_mNoWordBehind {lrev s : List Char} {n : Nat}
    (h : n ∈ mNoWordBehind lrev s) : n = 0 := by
  unfold mNoWordBehind at h
  by_cases hc : isWordOpt lrev.head? = true <;> simp [hc] at h
  exact h

theorem mem_mNoWordAhead {lrev s : List Char} {n : Nat}
    (h : n ∈ mNoWordAhead lrev s) : n = 0 := by
  unfold mNoWordAhead at h
  by_cases hc : isWordOpt s.head? = true <;> simp [hc] at h
  exact h

theorem countLeading_le_length (p : Char → Bool) (s : List Char) :
    countLeading p s ≤ s.length := by
  induction s with
  | nil => simp [countLeading]
  | cons c t ih =>
    by_cases hp : p c <;> simp [countLeading, hp]
    omega

theorem countLeading_head {p : Char → Bool} {s : List Char}
    (h : 1 ≤ countLeading p s) : ∃ c t, s = c :: t ∧ p c = true := by
  cases s with
  | nil => simp [countLeading] at h
  | cons c t =>
    by_cases hp : p c
    · exact ⟨c, t, rfl, hp⟩
    · simp [countLeading, hp] at h

theorem head_drop_mem_take {s : List Char} {k n : Nat} {c : Char} {t : List Char}
    (h : s.drop k = c :: t) (hkn : k < n) : c ∈ s.take n := by
  induction k generalizing s n with
  | zero =>
    rw [List.drop_zero] at h
    subst h
    cases n with
    | zero => omega
    | succ n => simp
  | succ k ih =>
    cases s with
    | nil => simp at h
    | cons d s2 =>
      cases n with
      | zero => omega
      | succ n =>
        simp only [List.drop_succ_cons] at h
        have := ih (n := n) h (by omega)
        simp [this]

/-! ## Facts about the placeholder shape -/

theorem anon_data : "ANON_".data = ['A', 'N', 'O', 'N', '_'] := rfl

/-- The characters that can occur in a placeholder. -/
def isPlaceholderChar (c : Char) : Bool :=
  c = 'A' || c = 'N' || c = 'O' || c = '_' || isHexLower c

theorem placeholderL_decomp {l : List Char} (h : isPlaceholderL l = true) :
    ∃ t, l = ['A', 'N', 'O', 'N', '_'] ++ t ∧ t.length = 8 ∧ t.all isHexLower = true := by
  unfold isPlaceholderL at h
  rw [Bool.and_assoc, Bool.and_eq_true, Bool.and_eq_true] at h
  obtain ⟨hpre, hlen, hall⟩ := h
  obtain ⟨t, rfl⟩ := List.isPrefixOf_iff_prefix.mp hpre
  rw [anon_data] at hall ⊢
  refine ⟨t, rfl, ?_, ?_⟩
  · have : (['A', 'N', 'O', 'N', '_'] ++ t).length = 13 := by
      rw [← anon_data]
      simpa using hlen
    simp at this
    omega
  · simpa using hall

theorem placeholderL_length {l : List Char} (h : isPlaceholderL l = true) :
    l.length = 13 := by
  obtain ⟨t, rfl, hlen, _⟩ := placeholderL_decomp h
  simp [hlen]

theorem placeholderL_mem {l : List Char} (h : isPlaceholderL l = true) :
    ∀ c ∈ l, isPlaceholderChar c = true := by
  obtain ⟨t, rfl, _, hall⟩ := placeholderL_decomp h
  intro c hc
  rcases List.mem_append.mp hc with hc | hc
  · fin_cases hc <;> decide
  · have := List.all_eq_true.mp hall c hc
    simp [isPlaceholderChar, this]

theorem not_placeholder_of_head {c : Char} {t : List Char} {n : Nat}
    (hn : 1 ≤ n) (hc : c ≠ 'A') : isPlaceholderL ((c :: t).take n) = false := by
  cases hb : isPlaceholderL ((c :: t).take n) with
  | false => rfl
  | true =>
    obtain ⟨u, heq, _, _⟩ := placeholderL_decomp hb
    cases n with
    | zero => omega
    | succ n =>
      rw [List.take_succ_cons] at heq
      simp at heq
      exact absurd heq.1 hc

theorem not_placeholder_of_mem {s : List Char} {c : Char}
    (hc : c ∈ s) (hnc : isPlaceholderChar c = false) : isPlaceholderL s = false := by
  cases hb : isPlaceholderL s with
  | false => rfl
  | true =>
    have := placeholderL_mem hb c hc
    rw [this] at hnc
    exact absurd hnc (by simp)

theorem not_placeholder_of_length {s : List Char} (h : s.length ≠ 13) :
    isPlaceholderL s = false := by
  cases hb : isPlaceholderL s with
  | false => rfl
  | true => exact absurd (placeholderL_length hb) h

/-! ## No detector match is itself placeholder-shaped -/

/-- The property needed for C10: every string the pattern can match fails
the placeholder shape test, so `replace_match` always records it. -/
def NoPlaceholderMatch (m : Matcher) : Prop :=
  ∀ lrev s n, n ∈ m lrev s → isPlaceholderL (s.take n) = false

theorem isPrefixOf_head {w s : List Char} {c : Char} {w2 : List Char}
    (hw : w = c :: w2) (h : w.isPrefixOf s = true) : ∃ t, s = c :: t := by
  obtain ⟨t, rfl⟩ := List.isPrefixOf_iff_prefix.mp h
  subst hw
  exact ⟨w2 ++ t, by simp⟩

theorem isPrefixOf_length_le {w s : List Char} (h : w.isPrefixOf s = true) :
    w.length ≤ s.length :=
  (List.isPrefixOf_iff_prefix.mp h).length_le

theorem digit_head_ne_A {c : Char} (h : isAsciiDigit c = true) : c ≠ 'A' := by
  intro heq
  subst heq
  exact absurd h (by decide)

theorem space_not_placeholder_char {c : Char} (h : isSpaceChar c = true) :
    isPlaceholderChar c = false := by
  unfold isSpaceChar at h
  simp only [Bool.or_eq_true, decide_eq_true_eq] at h
  rcases h with ((((rfl | rfl) | rfl) | rfl) | rfl) | rfl <;> decide

theorem noph_LABELLED : NoPlaceholderMatch LABELLED_SECRET_PATTERN := by
  intro lrev s n hn
  obtain ⟨la, l2, _, h2, rfl⟩ := mem_mSeq hn
  obtain ⟨ls1, l3, _, h3, rfl⟩ := mem_mSeq h2
  obtain ⟨lc, l4, hc, h4, rfl⟩ := mem_mSeq h3
  obtain ⟨rfl, c, t, hct, hpc⟩ := mem_mChar hc
  obtain ⟨ls2, lns, _, hns, rfl⟩ := mem_mSeq h4
  obtain ⟨hlo, -, -⟩ := mem_mRep hns
  rw [List.drop_drop] at hct
  have hcmem : c ∈ s.take (la + (ls1 + (1 + (ls2 + lns)))) :=
    head_drop_mem_take hct (by omega)
  have hpc2 : isPlaceholderChar c = false := by
    simp only [Bool.or_eq_true, decide_eq_true_eq] at hpc
    rcases hpc with rfl | rfl <;> decide
  exact not_placeholder_of_mem hcmem hpc2

theorem noph_INLINE : NoPlaceholderMatch INLINE_SECRET_PATTERN := by
  intro lrev s n hn
  obtain ⟨lw, l2, _, h2, rfl⟩ := mem_mSeq hn
  obtain ⟨lsp, lns, hsp, hns, rfl⟩ := mem_mSeq h2
  obtain ⟨hsp1, hsp2, -⟩ := mem_mRep hsp
  obtain ⟨hns1, -, -⟩ := mem_mRep hns
  obtain ⟨c, t, hct, hc⟩ := countLeading_head (le_trans hsp1 hsp2)
  have hcmem : c ∈ s.take (lw + (lsp + lns)) := head_drop_mem_take hct (by omega)
  exact not_placeholder_of_mem hcmem (space_not_placeholder_char hc)

theorem noph_IP : NoPlaceholderMatch IP_PATTERN := by
  intro lrev s n hn
  obtain ⟨l1, l2, h1, h2, rfl⟩ := mem_mSeq hn
  obtain rfl := mem_mWordB h1
  simp only [List.take_zero, List.reverse_nil, List.nil_append, List.drop_zero] at h2
  obtain ⟨ld, l3, hd, h3, rfl⟩ := mem_mSeq h2
  obtain ⟨hd1, -, -⟩ := mem_mRep hd
  obtain ⟨ldd, l4, hdd, h4, rfl⟩ := mem_mSeq h3
  obtain ⟨lc, ldig, hc2, hdig, rfl⟩ := mem_mSeq hdd
  obtain ⟨rfl, c, t, hct, hpc⟩ := mem_mChar hc2
  have hcmem : c ∈ s.take (0 + (ld + (1 + ldig + l4))) :=
    head_drop_mem_take hct (by omega)
  have hpc2 : isPlaceholderChar c = false := by
    simp only [decide_eq_true_eq] at hpc
    subst hpc
    decide
  exact not_placeholder_of_mem hcmem hpc2

theorem noph_EMAIL : NoPlaceholderMatch EMAIL_PATTERN := by
  intro lrev s n hn
  obtain ⟨l1, l2, h1, h2, rfl⟩ := mem_mSeq hn
  obtain ⟨h1a, -, -⟩ := mem_mRep h1
  obtain ⟨l3, l4, h3, h4, rfl⟩ := mem_mSeq h2
  obtain ⟨rfl, c, t, hct, hpc⟩ := mem_mChar h3
  obtain ⟨l5, l6, h5, h6, rfl⟩ := mem_mSeq h4
  obtain ⟨h5a, -, -⟩ := mem_mRep h5
  have hcmem : c ∈ s.take (l1 + (1 + (l5 + l6))) := head_drop_mem_take hct (by omega)
  have hpc2 : isPlaceholderChar c = false := by
    simp only [decide_eq_true_eq] at hpc
    subst hpc
    decide
  exact not_placeholder_of_mem hcmem hpc2

theorem noph_URL : NoPlaceholderMatch URL_PATTERN := by
  intro lrev s n hn
  obtain ⟨l1, l2, h1, h2, rfl⟩ := mem_mSeq hn
  obtain ⟨hpre, rfl⟩ := mem_mLit h1
  obtain ⟨t, rfl⟩ := isPrefixOf_head rfl hpre
  refine not_placeholder_of_head ?_ (by decide)
  have h4 : "http".data.length = 4 := rfl
  omega

theorem noph_JWT : NoPlaceholderMatch JWT_PATTERN := by
  intro lrev s n hn
  obtain ⟨l1, l2, h1, h2, rfl⟩ := mem_mSeq hn
  obtain rfl := mem_mWordB h1
  simp only [List.take_zero, List.reverse_nil, List.nil_append, List.drop_zero] at h2
  obtain ⟨l3, l4, h3, h4, rfl⟩ := mem_mSeq h2
  obtain ⟨hpre, rfl⟩ := mem_mLit h3
  obtain ⟨lb1, l5, hb1, h5, rfl⟩ := mem_mSeq h4
  obtain ⟨hb1a, -, -⟩ := mem_mRep hb1
  obtain ⟨l6, l7, h6, h7, rfl⟩ := mem_mSeq h5
  obtain ⟨rfl, c, t, hct, hpc⟩ := mem_mChar h6
  rw [List.drop_drop] at hct
  have hcmem : c ∈ s.take (0 + ("eyJ".data.length + (lb1 + (1 + l7)))) := by
    refine head_drop_mem_take hct ?_
    have h3a : "eyJ".data.length = 3 := rfl
    have h3b : (['e', 'y', 'J'] : List Char).length = 3 := rfl
    omega
  have hpc2 : isPlaceholderChar c = false := by
    simp only [decide_eq_true_eq] at hpc
    subst hpc
    decide
  exact not_placeholder_of_mem hcmem hpc2

theorem noph_AWS : NoPlaceholderMatch AWS_ACCESS_KEY_PATTERN := by
  intro lrev s n hn
  obtain ⟨l1, l2, h1, h2, rfl⟩ := mem_mSeq hn
  obtain rfl := mem_mWordB h1
  simp only [List.take_zero, List.reverse_nil, List.nil_append, List.drop_zero] at h2
  obtain ⟨l3, l4, h3, h4, rfl⟩ := mem_mSeq h2
  have hl3 : l3 = 4 ∧ 4 ≤ s.length := by
    rcases mem_mAlt h3 with h3 | h3 <;>
      obtain ⟨hpre, rfl⟩ := mem_mLit h3 <;>
      exact ⟨rfl, by simpa using isPrefixOf_length_le hpre⟩
  obtain ⟨rfl, hs4⟩ := hl3
  obtain ⟨l5, l6, h5, h6, rfl⟩ := mem_mSeq h4
  obtain ⟨h5a, h5b, h5c⟩ := mem_mRep h5
  obtain rfl := mem_mWordB h6
  have h16 : l5 = 16 := le_antisymm (h5c 16 rfl) h5a
  subst h16
  have hlen : 16 ≤ (s.drop 4).length :=
    le_trans h5b (countLeading_le_length _ _)
  rw [List.length_drop] at hlen
  apply not_placeholder_of_length
  rw [List.length_take]
  omega

theorem noph_GOOGLE : NoPlaceholderMatch GOOGLE_API_KEY_PATTERN := by
  intro lrev s n hn
  obtain ⟨l1, l2, h1, h2, rfl⟩ := mem_mSeq hn
  obtain rfl := mem_mWordB h1
  simp only [List.take_zero, List.reverse_nil, List.nil_append, List.drop_zero] at h2
  obtain ⟨l3, l4, h3, h4, rfl⟩ := mem_mSeq h2
  obtain ⟨hpre, rfl⟩ := mem_mLit h3
  have hs4 : 4 ≤ s.length := by simpa using isPrefixOf_length_le hpre
  obtain ⟨l5, l6, h5, h6, rfl⟩ := mem_mSeq h4
  obtain ⟨h5a, h5b, h5c⟩ := mem_mRep h5
  obtain rfl := mem_mWordB h6
  have h35 : l5 = 35 := le_antisymm (h5c 35 rfl) h5a
  subst h35
  have hlen : 35 ≤ (s.drop "AIza".data.length).length :=
    le_trans h5b (countLeading_le_length _ _)
  rw [List.length_drop] at hlen
  apply not_placeholder_of_length
  rw [List.length_take]
  have : "AIza".data.length = 4 := rfl
  omega

theorem noph_SLACK : NoPlaceholderMatch SLACK_TOKEN_PATTERN := by
  intro lrev s n hn
  obtain ⟨l1, l2, h1, h2, rfl⟩ := mem_mSeq hn
  obtain rfl := mem_mWordB h1
  simp only [List.take_zero, List.reverse_nil, List.nil_append, List.drop_zero] at h2
  obtain ⟨l3, l4, h3, h4, rfl⟩ := mem_mSeq h2
  obtain ⟨hpre, rfl⟩ := mem_mLit h3
  obtain ⟨t, rfl⟩ := isPrefixOf_head rfl hpre
  refine not_placeholder_of_head ?_ (by decide)
  have h3 : (['x', 'o', 'x'] : List Char).length = 3 := rfl
  omega

theorem noph_GITHUB : NoPlaceholderMatch GITHUB_TOKEN_PATTERN := by
  intro lrev s n hn
  obtain ⟨l1, l2, h1, h2, rfl⟩ := mem_mSeq hn
  obtain rfl := mem_mWordB h1
  simp only [List.take_zero, List.reverse_nil, List.nil_append, List.drop_zero] at h2
  obtain ⟨l3, l4, h3, h4, rfl⟩ := mem_mSeq h2
  obtain ⟨hpre, rfl⟩ := mem_mLit h3
  obtain ⟨t, rfl⟩ := isPrefixOf_head rfl hpre
  refine not_placeholder_of_head ?_ (by decide)
  have h2a : (['g', 'h'] : List Char).length = 2 := rfl
  omega

theorem noph_STRIPE : NoPlaceholderMatch STRIPE_KEY_PATTERN := by
  intro lrev s n hn
  obtain ⟨l1, l2, h1, h2, rfl⟩ := mem_mSeq hn
  obtain rfl := mem_mWordB h1
  simp only [List.take_zero, List.reverse_nil, List.nil_append, List.drop_zero] at h2
  obtain ⟨l3, l4, h3, h4, rfl⟩ := mem_mSeq h2
  obtain ⟨hpre, rfl⟩ := mem_mLit h3
  obtain ⟨t, rfl⟩ := isPrefixOf_head rfl hpre
  refine not_placeholder_of_head ?_ (by decide)
  have h3a : (['s', 'k', '_'] : List Char).length = 3 := rfl
  omega

theorem noph_PHONE : NoPlaceholderMatch PHONE_PATTERN := by
  intro lrev s n hn
  obtain ⟨l1, l2, h1, h2, rfl⟩ := mem_mSeq hn
  obtain rfl := mem_mNoWordBehind h1
  simp only [List.take_zero, List.reverse_nil, List.nil_append, List.drop_zero] at h2
  obtain ⟨l3, l4, h3, h4, rfl⟩ := mem_mSeq h2
  obtain ⟨l5, l6, h5, h6, rfl⟩ := mem_mSeq h4
  obtain rfl := mem_mNoWordAhead h6
  rcases mem_mOpt h3 with h3p | rfl
  · -- the optional country-code prefix is present (length ≥ 1, starts with + or a digit)
    obtain ⟨lp, lq, hp, hq, rfl⟩ := mem_mSeq h3p
    obtain ⟨-, hp2, hp3⟩ := mem_mRep hp
    cases lp with
    | zero =>
      simp only [List.take_zero, List.reverse_nil, List.nil_append, List.drop_zero] at hq
      obtain ⟨ld, lr, hd, hr, rfl⟩ := mem_mSeq hq
      obtain ⟨hd1, hd2, -⟩ := mem_mRep hd
      obtain ⟨c, t, rfl, hc⟩ := countLeading_head (le_trans hd1 hd2)
      exact not_placeholder_of_head (by omega) (digit_head_ne_A hc)
    | succ lp =>
      obtain ⟨c, t, rfl, hc⟩ := countLeading_head (le_trans (by omega) hp2)
      have : c = '+' := by simpa using hc
      subst this
      exact not_placeholder_of_head (by omega) (by decide)
  · -- no prefix: the alternation starts at the match position
    simp only [List.take_zero, List.reverse_nil, List.nil_append, List.drop_zero] at h5
    rcases mem_mAlt h5 with h5 | h5
    · obtain ⟨l7, l8, h7, h8, rfl⟩ := mem_mSeq h5
      obtain ⟨rfl, c, t, rfl, hc⟩ := mem_mChar h7
      have : c = '1' := by simpa using hc
      subst this
      exact not_placeholder_of_head (by omega) (by decide)
    · obtain ⟨l7, l8, h7, h8, rfl⟩ := mem_mSeq h5
      obtain ⟨-, h7b, -⟩ := mem_mRep h7
      cases l7 with
      | zero =>
        simp only [List.take_zero, List.reverse_nil, List.nil_append, List.drop_zero] at h8
        obtain ⟨l9, l10, h9, h10, rfl⟩ := mem_mSeq h8
        obtain ⟨h9a, h9b, -⟩ := mem_mRep h9
        obtain ⟨c, t, rfl, hc⟩ := countLeading_head (le_trans (by omega) h9b)
        exact not_placeholder_of_head (by omega) (digit_head_ne_A hc)
      | succ l7 =>
        obtain ⟨c, t, rfl, hc⟩ := countLeading_head (le_trans (by omega) h7b)
        have : c = '(' := by simpa using hc
        subst this
        exact not_placeholder_of_head (by omega) (by decide)

theorem sensitive_patterns_noph : ∀ m ∈ SENSITIVE_PATTERNS, NoPlaceholderMatch m := by
  intro m hm
  fin_cases hm
  · exact noph_LABELLED
  · exact noph_INLINE
  · exact noph_IP
  · exact noph_EMAIL
  · exact noph_PHONE
  · exact noph_URL
  · exact noph_JWT
  · exact noph_AWS
  · exact noph_GOOGLE
  · exact noph_SLACK
  · exact noph_GITHUB
  · exact noph_STRIPE

/-! ## Soundness of the scanner and growth of the mapping -/

theorem firstMatchFrom_sound {m : Matcher} :
    ∀ {lrev s : List Char} {o l : Nat}, firstMatchFrom m lrev s = some (o, l) →
      ∃ lrev2, l ∈ m lrev2 (s.drop o) := by
  intro lrev s
  induction s generalizing lrev with
  | nil =>
    intro o l h
    unfold firstMatchFrom at h
    cases hh : (m lrev []).head? with
    | none => rw [hh] at h; cases h
    | some l0 =>
      rw [hh] at h
      cases h
      refine ⟨lrev, ?_⟩
      simp only [List.drop_zero]
      exact List.mem_of_mem_head? (by rw [hh]; rfl)
  | cons c cs ih =>
    intro o l h
    unfold firstMatchFrom at h
    cases hh : (m lrev (c :: cs)).head? with
    | some l0 =>
      rw [hh] at h
      cases h
      refine ⟨lrev, ?_⟩
      simp only [List.drop_zero]
      exact List.mem_of_mem_head? (by rw [hh]; rfl)
    | none =>
      rw [hh] at h
      rcases Option.map_eq_some'.mp h with ⟨⟨o2, l2⟩, hinner, heq⟩
      cases heq
      obtain ⟨lrev2, hm⟩ := ih hinner
      exact ⟨lrev2, by simpa using hm⟩

theorem finditerAux_sound {m : Matcher} :
    ∀ {fuel : Nat} {lrev s : List Char} {st l : Nat},
      (st, l) ∈ finditerAux m fuel lrev s → ∃ lrev2, l ∈ m lrev2 (s.drop st) := by
  intro fuel
  induction fuel with
  | zero => intro lrev s st l h; cases h
  | succ fuel ih =>
    intro lrev s st l h
    unfold finditerAux at h
    cases hfm : firstMatchFrom m lrev s with
    | none => rw [hfm] at h; cases h
    | some p =>
      obtain ⟨start, len⟩ := p
      rw [hfm] at h
      simp only [List.mem_cons, List.mem_map] at h
      rcases h with h | ⟨⟨p1, p2⟩, hmem, heq⟩
      · cases h
        exact firstMatchFrom_sound hfm
      · cases heq
        obtain ⟨lrev2, hm⟩ := ih hmem
        rw [List.drop_drop] at hm
        exact ⟨lrev2, by convert hm using 3; omega⟩

theorem finditer_not_placeholder {m : Matcher} (hm : NoPlaceholderMatch m)
    {s : List Char} {st l : Nat} (h : (st, l) ∈ finditer m s) :
    isPlaceholderL (sliceStr s st l) = false := by
  obtain ⟨lrev2, hmem⟩ := finditerAux_sound h
  exact hm lrev2 (s.drop st) l hmem

theorem finditer_ne_nil_of_search {m : Matcher} {s : List Char}
    (h : patternSearch m s = true) : finditer m s ≠ [] := by
  cases hfm : firstMatchFrom m [] s with
  | none => rw [patternSearch, hfm] at h; cases h
  | some p =>
    obtain ⟨o, l⟩ := p
    simp [finditer, finditerAux, hfm]

theorem search_false_of_finditer_nil {m : Matcher} {s : List Char}
    (h : finditer m s = []) : patternSearch m s = false := by
  cases hfm : firstMatchFrom m [] s with
  | none => simp [patternSearch, hfm]
  | some p =>
    obtain ⟨o, l⟩ := p
    simp [finditer, finditerAux, hfm] at h

theorem _new_placeholder_append (supply : Nat → String) :
    ∀ (fuel : Nat) (mp : List (String × String)) (nx : Nat) (orig : String),
      ∃ ph nx2, _new_placeholder supply fuel mp nx orig = (ph, mp ++ [(ph, orig)], nx2) := by
  intro fuel
  induction fuel with
  | zero => intro mp nx orig; exact ⟨_, _, rfl⟩
  | succ fuel ih =>
    intro mp nx orig
    unfold _new_placeholder
    by_cases hc : (mp.map Prod.fst).contains ("ANON_" ++ supply nx) = true
    · simp only [hc, if_true]
      exact ih mp (nx + 1) orig
    · simp only [Bool.not_eq_true] at hc
      simp only [hc, Bool.false_eq_true, if_false]
      exact ⟨_, _, rfl⟩

theorem subMatches_extends (supply : Nat → String) (text : List Char) :
    ∀ (spans : List (Nat × Nat)) (pos : Nat) (mp : List (String × String)) (nx : Nat),
      ∃ suf, (subMatches supply text spans pos mp nx).2.1 = mp ++ suf := by
  intro spans
  induction spans with
  | nil => intro pos mp nx; exact ⟨[], by simp [subMatches]⟩
  | cons pr rest ih =>
    intro pos mp nx
    obtain ⟨start, len⟩ := pr
    unfold subMatches
    by_cases hph : isPlaceholderL (sliceStr text start len) = true
    · simp only [hph, if_true]
      obtain ⟨suf, hsuf⟩ := ih (start + len) mp nx
      exact ⟨suf, by simpa using hsuf⟩
    · simp only [Bool.not_eq_true] at hph
      simp only [hph, Bool.false_eq_true, if_false]
      obtain ⟨ph, nx2, hnp⟩ :=
        _new_placeholder_append supply (mp.length + 1) mp nx (String.mk (sliceStr text start len))
      simp only [hnp]
      obtain ⟨suf, hsuf⟩ := ih (start + len) (mp ++ [(ph, String.mk (sliceStr text start len))]) nx2
      refine ⟨[(ph, String.mk (sliceStr text start len))] ++ suf, ?_⟩
      simpa [List.append_assoc] using hsuf

theorem subMatches_ne_nil (supply : Nat → String) (text : List Char)
    {start len : Nat} {rest : List (Nat × Nat)}
    (hph : isPlaceholderL (sliceStr text start len) = false)
    (pos : Nat) (mp : List (String × String)) (nx : Nat) :
    (subMatches supply text ((start, len) :: rest) pos mp nx).2.1 ≠ [] := by
  unfold subMatches
  simp only [hph, Bool.false_eq_true, if_false]
  obtain ⟨ph, nx2, hnp⟩ :=
    _new_placeholder_append supply (mp.length + 1) mp nx (String.mk (sliceStr text start len))
  simp only [hnp]
  obtain ⟨suf, hsuf⟩ :=
    subMatches_extends supply text rest (start + len)
      (mp ++ [(ph, String.mk (sliceStr text start len))]) nx2
  simp only [hsuf]
  simp

theorem patternSub_ne_nil (supply : Nat → String) {m : Matcher} (hm : NoPlaceholderMatch m)
    {text : List Char} (h : finditer m text ≠ []) (mp : List (String × String)) (nx : Nat) :
    (patternSub supply m text mp nx).2.1 ≠ [] := by
  unfold patternSub
  cases hf : finditer m text with
  | nil => exact absurd hf h
  | cons pr rest =>
    obtain ⟨start, len⟩ := pr
    have hph : isPlaceholderL (sliceStr text start len) = false :=
      finditer_not_placeholder hm (by rw [hf]; simp)
    exact subMatches_ne_nil supply text hph 0 mp nx

theorem patternSub_extends (supply : Nat → String) (m : Matcher) (text : List Char)
    (mp : List (String × String)) (nx : Nat) :
    ∃ suf, (patternSub supply m text mp nx).2.1 = mp ++ suf :=
  subMatches_extends supply text (finditer m text) 0 mp nx

theorem anonymizeStages_extends (supply : Nat → String) :
    ∀ (ms : List Matcher) (text : List Char) (mp : List (String × String)) (nx : Nat),
      ∃ suf, (anonymizeStages supply ms text mp nx).2.1 = mp ++ suf := by
  intro ms
  induction ms with
  | nil => intro text mp nx; exact ⟨[], by simp [anonymizeStages]⟩
  | cons m rest ih =>
    intro text mp nx
    unfold anonymizeStages
    obtain ⟨s1, h1⟩ := patternSub_extends supply m text mp nx
    obtain ⟨s2, h2⟩ :=
      ih (patternSub supply m text mp nx).1 (patternSub supply m text mp nx).2.1
        (patternSub supply m text mp nx).2.2
    exact ⟨s1 ++ s2, by rw [h2, h1, List.append_assoc]⟩

theorem anonymizeStages_ne_nil (supply : Nat → String) :
    ∀ (ms : List Matcher) (text : List Char) (mp : List (String × String)) (nx : Nat),
      (∀ m ∈ ms, NoPlaceholderMatch m) → (∃ m ∈ ms, finditer m text ≠ []) →
      (anonymizeStages supply ms text mp nx).2.1 ≠ [] := by
  intro ms
  induction ms with
  | nil =>
    intro text mp nx _ h
    rcases h with ⟨m, hm, _⟩
    cases hm
  | cons m0 rest ih =>
    intro text mp nx hnoph h
    by_cases h0 : finditer m0 text = []
    · unfold anonymizeStages
      rw [patternSub_of_finditer_nil supply m0 text mp nx h0]
      rcases h with ⟨m, hm, hne⟩
      rcases List.mem_cons.mp hm with rfl | hm2
      · exact absurd h0 hne
      · exact ih text mp nx (fun m2 hm2 => hnoph m2 (by simp [hm2])) ⟨m, hm2, hne⟩
    · unfold anonymizeStages
      have h1 : (patternSub supply m0 text mp nx).2.1 ≠ [] :=
        patternSub_ne_nil supply (hnoph m0 (by simp)) h0 mp nx
      obtain ⟨suf, hsuf⟩ :=
        anonymizeStages_extends supply rest (patternSub supply m0 text mp nx).1
          (patternSub supply m0 text mp nx).2.1 (patternSub supply m0 text mp nx).2.2
      rw [hsuf]
      intro hcon
      exact h1 (List.append_eq_nil.mp hcon).1

theorem replaceCandidatesAux_extends (supply : Nat → String) (text : List Char)
    (pred : String → Bool) :
    ∀ (spans : List (Nat × Nat)) (pos : Nat) (mp : List (String × String)) (nx : Nat),
      ∃ suf, (replaceCandidatesAux supply text pred spans pos mp nx).2.1 = mp ++ suf := by
  intro spans
  induction spans with
  | nil => intro pos mp nx; exact ⟨[], by simp [replaceCandidatesAux]⟩
  | cons pr rest ih =>
    intro pos mp nx
    obtain ⟨start, len⟩ := pr
    unfold replaceCandidatesAux
    by_cases hp : pred (String.mk (sliceStr text start len)) = true
    · simp only [hp, if_true]
      obtain ⟨ph, nx2, hnp⟩ :=
        _new_placeholder_append supply (mp.length + 1) mp nx (String.mk (sliceStr text start len))
      simp only [hnp]
      obtain ⟨suf, hsuf⟩ := ih (start + len) (mp ++ [(ph, String.mk (sliceStr text start len))]) nx2
      exact ⟨[(ph, String.mk (sliceStr text start len))] ++ suf, by
        simpa [List.append_assoc] using hsuf⟩
    · simp only [Bool.not_eq_true] at hp
      simp only [hp, Bool.false_eq_true, if_false]
      exact ih pos mp nx

theorem replaceCandidatesAux_ne_nil (supply : Nat → String) (text : List Char)
    (pred : String → Bool) :
    ∀ (spans : List (Nat × Nat)) (pos : Nat) (mp : List (String × String)) (nx : Nat),
      (∃ pr ∈ spans, pred (String.mk (sliceStr text pr.1 pr.2)) = true) →
      (replaceCandidatesAux supply text pred spans pos mp nx).2.1 ≠ [] := by
  intro spans
  induction spans with
  | nil =>
    intro pos mp nx h
    rcases h with ⟨pr, hpr, _⟩
    cases hpr
  | cons pr rest ih =>
    intro pos mp nx h
    obtain ⟨start, len⟩ := pr
    unfold replaceCandidatesAux
    by_cases hp : pred (String.mk (sliceStr text start len)) = true
    · simp only [hp, if_true]
      obtain ⟨ph, nx2, hnp⟩ :=
        _new_placeholder_append supply (mp.length + 1) mp nx (String.mk (sliceStr text start len))
      simp only [hnp]
      obtain ⟨suf, hsuf⟩ :=
        replaceCandidatesAux_extends supply text pred rest (start + len)
          (mp ++ [(ph, String.mk (sliceStr text start len))]) nx2
      rw [hsuf]
      intro hcon
      simp at hcon
    · simp only [Bool.not_eq_true] at hp
      simp only [hp, Bool.false_eq_true, if_false]
      rcases h with ⟨pr2, hpr2, hp2⟩
      rcases List.mem_cons.mp hpr2 with rfl | hm2
      · rw [hp2] at hp; cases hp
      · exact ih pos mp nx ⟨pr2, hm2, hp2⟩

theorem _replace_candidates_ne_nil (supply : Nat → String) {m : Matcher}
    {pred : String → Bool} {text : List Char}
    (h : _contains_candidate m pred text = true) (mp : List (String × String)) (nx : Nat) :
    (_replace_candidates supply m pred text mp nx).2.1 ≠ [] := by
  unfold _replace_candidates
  unfold _contains_candidate at h
  rcases List.any_eq_true.mp h with ⟨pr, hpr, hp⟩
  exact replaceCandidatesAux_ne_nil supply text pred (finditer m text) 0 mp nx ⟨pr, hpr, hp⟩

theorem _replace_candidates_extends (supply : Nat → String) (m : Matcher)
    (pred : String → Bool) (text : List Char) (mp : List (String × String)) (nx : Nat) :
    ∃ suf, (_replace_candidates supply m pred text mp nx).2.1 = mp ++ suf :=
  replaceCandidatesAux_extends supply text pred (finditer m text) 0 mp nx

theorem ne_nil_append_left {α : Type} {l : List α} (h : l ≠ []) (s : List α) :
    l ++ s ≠ [] := by
  intro hc
  exact h (List.append_eq_nil.mp hc).1

/-- C10: `detect_sensitive(T)` is true exactly when the mapping returned
by `anonymize_sensitive_data(T)` is non-empty — detection and
anonymization agree on whether `T` contains sensitive content. The
forward direction uses that no detector can match a placeholder-shaped
string, so the first firing detector always records an entry. -/
theorem claim_C10 (supply : Nat → String) (text : String) :
    detect_sensitive text = true ↔ (anonymize_sensitive_data supply text).2 ≠ [] := by
  have hmain : (anonymize_sensitive_data supply text).2 =
      (anonymizeTokResult supply text).2.1 := by
    unfold anonymize_sensitive_data
    generalize anonymizeTokResult supply text = r
    rfl
  have hTokExt : ∃ s2, (anonymizeTokResult supply text).2.1 =
      (anonymizePassResult supply text).2.1 ++ s2 := by
    unfold anonymizeTokResult
    exact _replace_candidates_extends supply TOKEN_CANDIDATE_PATTERN _looks_like_token
      (anonymizePassResult supply text).1 (anonymizePassResult supply text).2.1
      (anonymizePassResult supply text).2.2
  have hPassExt : ∃ s1, (anonymizePassResult supply text).2.1 =
      (anonymizeStagesResult supply text).2.1 ++ s1 := by
    unfold anonymizePassResult
    exact _replace_candidates_extends supply PASSWORD_CANDIDATE_PATTERN
      _looks_like_complex_password
      (anonymizeStagesResult supply text).1 (anonymizeStagesResult supply text).2.1
      (anonymizeStagesResult supply text).2.2
  constructor
  · intro h
    rw [hmain]
    obtain ⟨s2, e2⟩ := hTokExt
    obtain ⟨s1, e1⟩ := hPassExt
    by_cases hA : ∃ m ∈ SENSITIVE_PATTERNS, finditer m text.data ≠ []
    · have h1 : (anonymizeStagesResult supply text).2.1 ≠ [] :=
        anonymizeStages_ne_nil supply SENSITIVE_PATTERNS text.data [] 0
          sensitive_patterns_noph hA
      rw [e2, e1]
      exact ne_nil_append_left (ne_nil_append_left h1 s1) s2
    · push_neg at hA
      have hall : ∀ m ∈ SENSITIVE_PATTERNS, finditer m text.data = [] := hA
      have hstages : anonymizeStagesResult supply text = (text.data, [], 0) := by
        unfold anonymizeStagesResult
        exact anonymizeStages_of_no_match supply SENSITIVE_PATTERNS text.data [] 0 hall
      unfold detect_sensitive at h
      have hAfalse : (SENSITIVE_PATTERNS.any fun m => patternSearch m text.data) = false :=
        List.any_eq_false.mpr (fun m hm => by
          simp [search_false_of_finditer_nil (hall m hm)])
      rw [hAfalse] at h
      simp only [Bool.false_or, Bool.or_eq_true] at h
      by_cases hB : _contains_candidate PASSWORD_CANDIDATE_PATTERN
          _looks_like_complex_password text.data = true
      · have h2 : (anonymizePassResult supply text).2.1 ≠ [] := by
          unfold anonymizePassResult
          rw [hstages]
          exact _replace_candidates_ne_nil supply hB [] 0
        rw [e2]
        exact ne_nil_append_left h2 s2
      · have hC : _contains_candidate TOKEN_CANDIDATE_PATTERN
            _looks_like_token text.data = true := by
          rcases h with h | h
          · exact absurd h hB
          · exact h
        have hBfalse : _contains_candidate PASSWORD_CANDIDATE_PATTERN
            _looks_like_complex_password text.data = false := by
          cases hb : _contains_candidate PASSWORD_CANDIDATE_PATTERN
              _looks_like_complex_password text.data
          · rfl
          · exact absurd hb hB
        have hpassid : anonymizePassResult supply text = (text.data, [], 0) := by
          unfold anonymizePassResult
          rw [hstages]
          exact _replace_candidates_of_not_contains supply PASSWORD_CANDIDATE_PATTERN
            _looks_like_complex_password text.data [] 0 hBfalse
        have h3 : (anonymizeTokResult supply text).2.1 ≠ [] := by
          unfold anonymizeTokResult
          rw [hpassid]
          exact _replace_candidates_ne_nil supply hC [] 0
        exact h3
  · intro h
    cases hd : detect_sensitive text with
    | true => rfl
    | false =>
      have h0 := anonymize_of_not_detect supply text hd
      rw [h0] at h
      simp at h

/-- Witness for C10 at concrete inputs on both sides of the equivalence:
`key pwd:a` is detected and anonymizes to a non-empty mapping, while
`the quick brown fox` is not detected and anonymizes to an empty one. -/
theorem claim_C10_witness :
    (anonymize_sensitive_data supply0 "key pwd:a").2 ≠ [] ∧
    detect_sensitive "the quick brown fox" ≠ true :=
  ⟨(claim_C10 supply0 "key pwd:a").mp (by decide),
   fun hc => by
    have := (claim_C10 supply0 "the quick brown fox").mp hc
    exact this (by decide)⟩

/-! ## The hybrid search / relatedness ranker (`main.py`)

A candidate `Note` carries its database columns with the JSON-encoded
columns (`ai_tags`, `ai_entities`, `embedding`) modelled by their decoded
values (entity values already stringified). `crypto.decrypt_content` is
not under `src/`; following the spec, which treats the body as plaintext
decrypted by the caller, it is modelled as the identity, and the `key`
argument as `Unit`. The `ai.get_embedding` collaborator (an external
EmbeddingProvider returning a vector or `None`) is passed in as a
function argument, and the env-configured `SEMANTIC_SIMILARITY_THRESHOLD`
as the `threshold` argument. -/

/-- The fragment of Python `str.lower` used by the ranker (ASCII). -/
def pyLower (s : String) : String := String.mk (s.data.map charLower)

/-- Python `str.strip` (ASCII whitespace on both ends). -/
def pyStrip (s : String) : String :=
  String.mk (((s.data.dropWhile isSpaceChar).reverse.dropWhile isSpaceChar).reverse)

/-- A ranked/clustered candidate document (`models.Note` columns). -/
structure Note where
  id : Int
  title : Option String
  short_title : Option String
  content : String
  content_encrypted : Bool
  ai_summary : Option String
  ai_tags : List String
  ai_entities : List (String × String)
  embedding : Option (List ℝ)

/-- Modelled from the spec: `crypto.decrypt_content` is not under `src/`;
the spec says the body reaches the core as plaintext decrypted by the
caller, so decryption is the identity on the stored plaintext. -/
def decrypt_content (content : String) (_key : Unit) : String := content

/-- `_parse_embedding` on the decoded `embedding` column: `None` stays
`None` (unparseable/absent) and an empty list becomes `None`
(`embedding or None`). -/
def _parse_embedding (raw : Option (List ℝ)) : Option (List ℝ) :=
  match raw with
  | none => none
  | some l => if l.isEmpty then none else some l

/-- Python truthiness of an optional vector. -/
def optVecTruthy : Option (List ℝ) → Bool
  | none => false
  | some l => !l.isEmpty

/-- `value or ""` for an optional string column. -/
def optStr (o : Option String) : String := o.getD ""

/-- `_note_matches_query(note, query, key)`: case-insensitive substring
search over title, short title, decrypted body, summary, tags and
entities. -/
def _note_matches_query (note : Note) (query : String) (key : Unit) : Bool :=
  let query_lower := (pyLower query).data
  let title := optStr note.title
  let short_title := optStr note.short_title
  let content := if note.content_encrypted then decrypt_content note.content key
    else note.content
  let summary := optStr note.ai_summary
  (!title.isEmpty && occursInL query_lower (pyLower title).data) ||
  (!short_title.isEmpty && occursInL query_lower (pyLower short_title).data) ||
  (!content.isEmpty && occursInL query_lower (pyLower content).data) ||
  (!summary.isEmpty && occursInL query_lower (pyLower summary).data) ||
  (note.ai_tags.any fun tag => occursInL query_lower (pyLower tag).data) ||
  (note.ai_entities.any fun kv =>
    occursInL query_lower (pyLower kv.1).data || occursInL query_lower (pyLower kv.2).data)

/-- `_note_matching_keywords(note, keywords, key)`: the matching keywords
in input order, deduplicated by lowercase form (the lowered form is
remembered whether or not the keyword matched). -/
def _note_matching_keywords (note : Note) (keywords : List String) (key : Unit) :
    List String :=
  (keywords.foldl (fun (st : List String × List String) keyword =>
    let cleaned := pyStrip keyword
    if cleaned.isEmpty then st
    else
      let lowered := pyLower cleaned
      if st.2.contains lowered then st
      else
        let st1 := if _note_matches_query note cleaned key then (st.1 ++ [cleaned], st.2)
          else st
        (st1.1, st1.2 ++ [lowered])) ([], [])).1

/-- `schemas.SearchInfo`. -/
structure SearchInfo where
  match_type : String
  matched_keywords : List String
  similarity : ℝ
  score : ℝ

/-- One element of the `ranked` list of `_semantic_search_notes` /
`_related_notes`: the composite rank key (the Python 5-tuple, modelled as
a 5-element list compared lexicographically), the score, the note, and
the search info (`_note_to_schema` serialization is abstracted away, the
note and its search info are returned as they are). -/
structure RankedEntry where
  rank_key : List ℝ
  score : ℝ
  note : Note
  info : SearchInfo

/-- The `similarity` value the ranking loop computes for one candidate:
0 unless the query embedding is truthy and the candidate embedding
parses, else their cosine similarity. -/
noncomputable def noteSimilarity (query_embedding : Option (List ℝ)) (candidate : Note) : ℝ :=
  match query_embedding with
  | none => 0
  | some qe =>
    if qe.isEmpty then 0
    else
      match _parse_embedding candidate.embedding with
      | none => 0
      | some emb => _cosine_similarity qe emb

/-- The loop body of `_semantic_search_notes`: the ranked entry for one
candidate note, or `none` when the candidate is filtered out. -/
noncomputable def rankNote (query_embedding : Option (List ℝ)) (threshold : ℝ)
    (keyword_list : List String) (direct_query_lower : String) (key : Unit)
    (note : Note) : Option RankedEntry :=
  let matched_keywords := _note_matching_keywords note keyword_list key
  let text_match := !matched_keywords.isEmpty
  let matched_count := matched_keywords.length
  let direct_match :=
    if direct_query_lower.isEmpty then false
    else matched_keywords.any fun item => pyLower item == direct_query_lower
  let similarity := noteSimilarity query_embedding note
  let score := similarity
  let score := if text_match then score + 0.25 else score
  let score := if matched_count > 1 then score + 0.05 * ((matched_count : ℝ) - 1) else score
  let score := if direct_match then score + 0.35 else score
  let has_semantic_match := optVecTruthy query_embedding && decide (similarity ≥ threshold)
  if text_match || has_semantic_match then
    let match_type := if text_match then "keyword" else "semantic"
    let match_type := if text_match && has_semantic_match then "keyword+semantic"
      else match_type
    let rank_key : List ℝ :=
      [if direct_match then 1 else 0, (matched_count : ℝ),
       if text_match then 1 else 0, similarity, score]
    some ⟨rank_key, score, note,
      ⟨match_type, matched_keywords, similarity, score⟩⟩
  else none

/-- The first `for note in notes` pass of `_semantic_search_notes`. -/
noncomputable def rankedPrimary (notes : List Note) (query_embedding : Option (List ℝ))
    (threshold : ℝ) (keyword_list : List String) (direct_query_lower : String)
    (key : Unit) : List RankedEntry :=
  notes.filterMap (rankNote query_embedding threshold keyword_list direct_query_lower key)

/-- The `if not ranked and query_embedding` fallback pass: every note
with a parseable embedding, scored purely by similarity. -/
noncomputable def rankedFallback (notes : List Note) (qe : List ℝ) : List RankedEntry :=
  notes.filterMap fun note =>
    match _parse_embedding note.embedding with
    | none => none
    | some note_embedding =>
      let similarity := _cosine_similarity qe note_embedding
      some ⟨[0, 0, 0, similarity, similarity], similarity, note,
        ⟨"semantic", [], similarity, similarity⟩⟩

/-- The `ranked` list of `_semantic_search_notes` before sorting. -/
noncomputable def rankedAll (notes : List Note) (query_embedding : Option (List ℝ))
    (threshold : ℝ) (keyword_list : List String) (direct_query_lower : String)
    (key : Unit) : List RankedEntry :=
  let ranked := rankedPrimary notes query_embedding threshold keyword_list
    direct_query_lower key
  if ranked.isEmpty && optVecTruthy query_embedding then
    rankedFallback notes (query_embedding.getD [])
  else ranked

/-- `ranked.sort(key=lambda item: item[0], reverse=True)`: Python's
stable descending sort by the composite key (lexicographic on the
5-element key). -/
noncomputable def sortRanked (ranked : List RankedEntry) : List RankedEntry :=
  ranked.mergeSort fun a b => decide (b.rank_key ≤ a.rank_key)

/-- `keyword_list = keywords or [semantic_query]`. -/
def searchKeywordList (semantic_query : String) (keywords : List String) : List String :=
  if keywords.isEmpty then [semantic_query] else keywords

/-- `direct_query_lower = (keyword_list[0] if keyword_list else semantic_query).strip().lower()`. -/
def searchDirectQueryLower (semantic_query : String) (keywords : List String) : String :=
  pyLower (pyStrip ((searchKeywordList semantic_query keywords).headD semantic_query))

/-- The sorted ranked list of `_semantic_search_notes`. -/
noncomputable def searchRanked (notes : List Note) (semantic_query : String)
    (keywords : List String) (key : Unit)
    (get_embedding : String → Option (List ℝ)) (threshold : ℝ) : List RankedEntry :=
  sortRanked (rankedAll notes (get_embedding semantic_query) threshold
    (searchKeywordList semantic_query keywords)
    (searchDirectQueryLower semantic_query keywords) key)

/-- `_semantic_search_notes`: rank, sort descending by the composite key,
return the `[offset : offset + limit]` slice and the total count. -/
noncomputable def _semantic_search_notes (notes : List Note) (semantic_query : String)
    (keywords : List String) (key : Unit) (limit offset : Nat)
    (get_embedding : String → Option (List ℝ)) (threshold : ℝ) :
    List RankedEntry × Nat :=
  ((((searchRanked notes semantic_query keywords key get_embedding threshold).drop
      offset).take limit),
   (searchRanked notes semantic_query keywords key get_embedding threshold).length)

/-- The loop state of `_related_notes`: the accumulated ranked list and
the `used_semantic` flag. -/
noncomputable def relatedStep (note : Note) (query_embedding : Option (List ℝ))
    (threshold : ℝ) (keywords : List String) (direct_query_lower : String) (key : Unit)
    (st : List RankedEntry × Bool) (candidate : Note) : List RankedEntry × Bool :=
  if candidate.id == note.id then st
  else
    let matched_keywords := if keywords.isEmpty then []
      else _note_matching_keywords candidate keywords key
    let text_match := !matched_keywords.isEmpty
    let matched_count := matched_keywords.length
    let direct_match :=
      if direct_query_lower.isEmpty then false
      else matched_keywords.any fun item => pyLower item == direct_query_lower
    let similarity := noteSimilarity query_embedding candidate
    let has_semantic_match := optVecTruthy query_embedding && decide (similarity ≥ threshold)
    let used_semantic := st.2 || has_semantic_match
    if !text_match && !has_semantic_match then (st.1, used_semantic)
    else
      let score := similarity
      let score := if text_match then score + 0.25 else score
      let score := if matched_count > 1 then score + 0.05 * ((matched_count : ℝ) - 1)
        else score
      let score := if direct_match then score + 0.35 else score
      let match_type := if text_match then "keyword" else "semantic"
      let match_type := if text_match && has_semantic_match then "keyword+semantic"
        else match_type
      let rank_key : List ℝ :=
        [if direct_match then 1 else 0, (matched_count : ℝ),
         if text_match then 1 else 0, similarity, score]
      (st.1 ++ [⟨rank_key, score, candidate,
        ⟨match_type, matched_keywords, similarity, score⟩⟩], used_semantic)

/-- The final state of the `for candidate in notes` loop of `_related_notes`. -/
noncomputable def relatedState (note : Note) (notes : List Note) (key : Unit)
    (query_embedding : Option (List ℝ)) (keywords : List String) (threshold : ℝ) :
    List RankedEntry × Bool :=
  notes.foldl
    (relatedStep note query_embedding threshold keywords (pyLower (pyStrip (keywords.headD ""))) key)
    ([], false)

/-- `_related_notes(note, notes, key, query_embedding, limit)`: the
candidate loop, the descending sort, the `[:limit]` slice and the mode
label. The keyword list is the result of `_build_related_keywords(note,
key)`, taken here as the `keywords` argument; the env-configured
similarity threshold is the `threshold` argument. -/
noncomputable def _related_notes (note : Note) (notes : List Note) (key : Unit)
    (query_embedding : Option (List ℝ)) (limit : Nat) (keywords : List String)
    (threshold : ℝ) : List RankedEntry × Nat × String :=
  ((sortRanked (relatedState note notes key query_embedding keywords threshold).1).take limit,
   (sortRanked (relatedState note notes key query_embedding keywords threshold).1).length,
   if (relatedState note notes key query_embedding keywords threshold).2 then "semantic"
   else "keyword")

/-! ## Facts about the ranker -/

theorem sortRanked_sorted (l : List RankedEntry) :
    List.Pairwise (fun a b => b.rank_key ≤ a.rank_key) (sortRanked l) := by
  have h := @List.sorted_mergeSort RankedEntry
    (fun a b : RankedEntry => decide (b.rank_key ≤ a.rank_key))
    (fun a b c h1 h2 => by
      simp only [decide_eq_true_eq] at h1 h2 ⊢
      exact le_trans h2 h1)
    (fun a b => by
      rcases le_total a.rank_key b.rank_key with h | h <;> simp [h])
    l
  exact h.imp (fun hab => by simpa using hab)

theorem mem_sortRanked {e : RankedEntry} {l : List RankedEntry} :
    e ∈ sortRanked l ↔ e ∈ l :=
  (List.mergeSort_perm l _).mem_iff

theorem rankNote_eq_none_iff (qe : Option (List ℝ)) (t : ℝ) (kl : List String)
    (dql : String) (key : Unit) (n : Note) :
    rankNote qe t kl dql key n = none ↔
      ((!(_note_matching_keywords n kl key).isEmpty) ||
        (optVecTruthy qe && decide (noteSimilarity qe n ≥ t))) = false := by
  by_cases h : ((!(_note_matching_keywords n kl key).isEmpty) ||
      (optVecTruthy qe && decide (noteSimilarity qe n ≥ t))) = true
  · simp only [rankNote, h, if_true]
    simp
  · have h2 : ((!(_note_matching_keywords n kl key).isEmpty) ||
        (optVecTruthy qe && decide (noteSimilarity qe n ≥ t))) = false := by
      cases hb : ((!(_note_matching_keywords n kl key).isEmpty) ||
          (optVecTruthy qe && decide (noteSimilarity qe n ≥ t)))
      · rfl
      · exact absurd hb h
    simp only [rankNote, h2, Bool.false_eq_true, if_false]

theorem rankNote_some_spec {qe : Option (List ℝ)} {t : ℝ} {kl : List String}
    {dql : String} {key : Unit} {n : Note} {e : RankedEntry}
    (h : rankNote qe t kl dql key n = some e) :
    e.note = n ∧
    e.info.matched_keywords = _note_matching_keywords n kl key ∧
    e.info.similarity = noteSimilarity qe n ∧
    (∃ d tm : ℝ,
      (d = 0 ∨ d = 1) ∧
      tm = (if e.info.matched_keywords.isEmpty then (0 : ℝ) else 1) ∧
      e.rank_key = [d, (e.info.matched_keywords.length : ℝ), tm, e.info.similarity, e.score] ∧
      e.score = e.info.similarity + 0.25 * tm +
        0.05 * max 0 ((e.info.matched_keywords.length : ℝ) - 1) + 0.35 * d) := by
  simp only [rankNote] at h
  split at h
  case isFalse => cases h
  case isTrue hcond =>
    cases h
    refine ⟨rfl, rfl, rfl, ?_⟩
    by_cases htext : (_note_matching_keywords n kl key).isEmpty = true
    · -- no keyword match: the entry is included for its similarity only
      have hmk : _note_matching_keywords n kl key = [] := by
        simpa [List.isEmpty_iff] using htext
      have hdirect : (if dql.isEmpty then false
          else (_note_matching_keywords n kl key).any fun item =>
            pyLower item == dql) = false := by
        by_cases hdq : dql.isEmpty <;> simp [hdq, hmk]
      refine ⟨0, 0, Or.inl rfl, ?_, ?_, ?_⟩
      · simp [htext]
      · simp [htext, hdirect, hmk]
      · simp [htext, hdirect, hmk]
        try norm_num
    · have hne : _note_matching_keywords n kl key ≠ [] := by
        simpa [List.isEmpty_iff] using htext
      have hlen1 : 1 ≤ (_note_matching_keywords n kl key).length :=
        List.length_pos.mpr hne
      have htextb : (_note_matching_keywords n kl key).isEmpty = false := by
        simpa [List.isEmpty_iff] using hne
      refine ⟨(if (if dql.isEmpty then false
          else (_note_matching_keywords n kl key).any fun item =>
            pyLower item == dql) then (1:ℝ) else 0), 1, ?_, by simp [htextb], ?_, ?_⟩
      · by_cases hd : (if dql.isEmpty then false
            else (_note_matching_keywords n kl key).any fun item =>
              pyLower item == dql) = true <;> simp [hd]
      · simp [htextb]
      · simp only [htextb, Bool.false_eq_true, if_false, if_true]
        by_cases hcnt : (_note_matching_keywords n kl key).length > 1
        · have hmax : max (0:ℝ) (((_note_matching_keywords n kl key).length : ℝ) - 1) =
              ((_note_matching_keywords n kl key).length : ℝ) - 1 := by
            rw [max_eq_right]
            have : (1:ℝ) ≤ ((_note_matching_keywords n kl key).length : ℝ) := by
              exact_mod_cast hlen1
            linarith
          by_cases hd : (if dql.isEmpty then false
              else (_note_matching_keywords n kl key).any fun item =>
                pyLower item == dql) = true <;>
            simp [hcnt, hd, hmax]
        · have hc1 : (_note_matching_keywords n kl key).length = 1 := by omega
          have hmax : max (0:ℝ) (((_note_matching_keywords n kl key).length : ℝ) - 1) = 0 := by
            rw [hc1]
            norm_num
          by_cases hd : (if dql.isEmpty then false
              else (_note_matching_keywords n kl key).any fun item =>
                pyLower item == dql) = true <;>
            simp [hcnt, hd, hmax]

theorem rankNote_some_of_cond {qe : Option (List ℝ)} {t : ℝ} {kl : List String}
    {dql : String} {key : Unit} {n : Note}
    (h : ((!(_note_matching_keywords n kl key).isEmpty) ||
      (optVecTruthy qe && decide (noteSimilarity qe n ≥ t))) = true) :
    ∃ e, rankNote qe t kl dql key n = some e := by
  cases he : rankNote qe t kl dql key n with
  | some e => exact ⟨e, rfl⟩
  | none =>
    have := (rankNote_eq_none_iff qe t kl dql key n).mp he
    rw [h] at this
    cases this

theorem mem_rankedPrimary {notes : List Note} {qe : Option (List ℝ)} {t : ℝ}
    {kl : List String} {dql : String} {key : Unit} {e : RankedEntry} :
    e ∈ rankedPrimary notes qe t kl dql key ↔
      ∃ n ∈ notes, rankNote qe t kl dql key n = some e := by
  unfold rankedPrimary
  exact List.mem_filterMap

theorem mem_rankedFallback_spec {notes : List Note} {qe : List ℝ} {e : RankedEntry}
    (h : e ∈ rankedFallback notes qe) :
    e.note ∈ notes ∧ _parse_embedding e.note.embedding ≠ none ∧
    e.info.matched_keywords = [] ∧
    e.rank_key = [0, 0, 0, e.info.similarity, e.score] ∧
    e.score = e.info.similarity ∧
    e.info.similarity = _cosine_similarity qe ((_parse_embedding e.note.embedding).getD []) := by
  unfold rankedFallback at h
  rcases List.mem_filterMap.mp h with ⟨n, hn, hf⟩
  cases hemb : _parse_embedding n.embedding with
  | none => rw [hemb] at hf; cases hf
  | some emb =>
    rw [hemb] at hf
    cases hf
    refine ⟨hn, by simp [hemb], rfl, ?_, rfl, by simp [hemb]⟩
    norm_num

theorem mem_rankedFallback_of {notes : List Note} {qe : List ℝ} {n : Note}
    (hn : n ∈ notes) (hemb : _parse_embedding n.embedding ≠ none) :
    ∃ e ∈ rankedFallback notes qe, e.note = n := by
  unfold rankedFallback
  cases he : _parse_embedding n.embedding with
  | none => exact absurd he hemb
  | some emb =>
    refine ⟨⟨[0, 0, 0, _cosine_similarity qe emb, _cosine_similarity qe emb],
      _cosine_similarity qe emb, n, ⟨"semantic", [], _cosine_similarity qe emb,
        _cosine_similarity qe emb⟩⟩, ?_, rfl⟩
    apply List.mem_filterMap.mpr
    exact ⟨n, hn, by rw [he]⟩

theorem rankedAll_eq_primary {notes : List Note} {qe : Option (List ℝ)} {t : ℝ}
    {kl : List String} {dql : String} {key : Unit}
    (h : rankedPrimary notes qe t kl dql key ≠ [] ∨ optVecTruthy qe = false) :
    rankedAll notes qe t kl dql key = rankedPrimary notes qe t kl dql key := by
  unfold rankedAll
  have hc : ((rankedPrimary notes qe t kl dql key).isEmpty && optVecTruthy qe) = false := by
    rcases h with h | h
    · simp [List.isEmpty_iff, h]
    · simp [h]
  simp only [hc, Bool.false_eq_true, if_false]

theorem rankedAll_eq_fallback {notes : List Note} {qe : Option (List ℝ)} {t : ℝ}
    {kl : List String} {dql : String} {key : Unit}
    (h1 : rankedPrimary notes qe t kl dql key = []) (h2 : optVecTruthy qe = true) :
    rankedAll notes qe t kl dql key = rankedFallback notes (qe.getD []) := by
  unfold rankedAll
  have hc : ((rankedPrimary notes qe t kl dql key).isEmpty && optVecTruthy qe) = true := by
    simp [List.isEmpty_iff, h1, h2]
  simp only [hc, if_true]

/-- C4: a candidate appears in the ranked result set iff it has a matched
keyword or the query embedding is truthy and its similarity meets the
threshold; when that filter is empty and a query embedding exists, the
fallback includes exactly the candidates with a parseable embedding,
scored purely by similarity; and with a non-empty keyword list, no
keyword hits and no query embedding the result set is empty. -/
theorem claim_C4 (notes : List Note) (semantic_query : String) (keywords : List String)
    (key : Unit) (get_embedding : String → Option (List ℝ)) (threshold : ℝ) :
    ((rankedPrimary notes (get_embedding semantic_query) threshold
        (searchKeywordList semantic_query keywords)
        (searchDirectQueryLower semantic_query keywords) key ≠ [] ∨
      optVecTruthy (get_embedding semantic_query) = false) →
      ∀ n : Note,
        ((∃ e ∈ searchRanked notes semantic_query keywords key get_embedding threshold,
            e.note = n) ↔
          (n ∈ notes ∧
            (_note_matching_keywords n (searchKeywordList semantic_query keywords) key ≠ [] ∨
              (optVecTruthy (get_embedding semantic_query) = true ∧
                noteSimilarity (get_embedding semantic_query) n ≥ threshold))))) ∧
    ((rankedPrimary notes (get_embedding semantic_query) threshold
        (searchKeywordList semantic_query keywords)
        (searchDirectQueryLower semantic_query keywords) key = [] ∧
      optVecTruthy (get_embedding semantic_query) = true) →
      (∀ n : Note,
        ((∃ e ∈ searchRanked notes semantic_query keywords key get_embedding threshold,
            e.note = n) ↔ (n ∈ notes ∧ _parse_embedding n.embedding ≠ none))) ∧
      (∀ e ∈ searchRanked notes semantic_query keywords key get_embedding threshold,
        e.info.matched_keywords = [] ∧ e.score = e.info.similarity ∧
        e.info.similarity = _cosine_similarity ((get_embedding semantic_query).getD [])
          ((_parse_embedding e.note.embedding).getD []))) ∧
    ((keywords ≠ [] ∧ (∀ n ∈ notes, _note_matching_keywords n keywords key = []) ∧
        get_embedding semantic_query = none) →
      searchRanked notes semantic_query keywords key get_embedding threshold = []) := by
  refine ⟨?_, ?_, ?_⟩
  · intro h n
    unfold searchRanked
    rw [rankedAll_eq_primary h]
    constructor
    · rintro ⟨e, he, rfl⟩
      have he2 := mem_sortRanked.mp he
      rcases mem_rankedPrimary.mp he2 with ⟨n2, hn2, hsome⟩
      obtain ⟨hnote, -, -, -⟩ := rankNote_some_spec hsome
      subst hnote
      refine ⟨hn2, ?_⟩
      have hne : rankNote (get_embedding semantic_query) threshold
          (searchKeywordList semantic_query keywords)
          (searchDirectQueryLower semantic_query keywords) key e.note ≠ none := by
        rw [hsome]; simp
      have hcond := (rankNote_eq_none_iff _ _ _ _ _ _).not.mp hne
      have hcond2 : ((!(_note_matching_keywords e.note
          (searchKeywordList semantic_query keywords) key).isEmpty) ||
          (optVecTruthy (get_embedding semantic_query) &&
            decide (noteSimilarity (get_embedding semantic_query) e.note ≥ threshold))) = true := by
        cases hb : ((!(_note_matching_keywords e.note
            (searchKeywordList semantic_query keywords) key).isEmpty) ||
            (optVecTruthy (get_embedding semantic_query) &&
              decide (noteSimilarity (get_embedding semantic_query) e.note ≥ threshold)))
        · exact absurd hb hcond
        · rfl
      rcases Bool.or_eq_true_iff.mp hcond2 with hb | hb
      · left
        simpa [List.isEmpty_iff] using hb
      · right
        rw [Bool.and_eq_true] at hb
        exact ⟨hb.1, of_decide_eq_true hb.2⟩
    · rintro ⟨hn, hcond⟩
      have hcondb : ((!(_note_matching_keywords n
          (searchKeywordList semantic_query keywords) key).isEmpty) ||
          (optVecTruthy (get_embedding semantic_query) &&
            decide (noteSimilarity (get_embedding semantic_query) n ≥ threshold))) = true := by
        rcases hcond with hb | ⟨hb1, hb2⟩
        · simp [List.isEmpty_iff, hb]
        · simp [hb1, hb2]
      obtain ⟨e, hsome⟩ := rankNote_some_of_cond hcondb
      obtain ⟨hnote, -, -, -⟩ := rankNote_some_spec hsome
      refine ⟨e, mem_sortRanked.mpr (mem_rankedPrimary.mpr ⟨n, hn, hsome⟩), hnote⟩
  · rintro ⟨h1, h2⟩
    constructor
    · intro n
      unfold searchRanked
      rw [rankedAll_eq_fallback h1 h2]
      constructor
      · rintro ⟨e, he, rfl⟩
        have he2 := mem_sortRanked.mp he
        obtain ⟨hmem, hemb, -, -, -, -⟩ := mem_rankedFallback_spec he2
        exact ⟨hmem, hemb⟩
      · rintro ⟨hn, hemb⟩
        obtain ⟨e, he, hnote⟩ := @mem_rankedFallback_of notes
          ((get_embedding semantic_query).getD []) n hn hemb
        exact ⟨e, mem_sortRanked.mpr he, hnote⟩
    · intro e he
      unfold searchRanked at he
      rw [rankedAll_eq_fallback h1 h2] at he
      have he2 := mem_sortRanked.mp he
      obtain ⟨-, -, hmk, -, hscore, hsim⟩ := mem_rankedFallback_spec he2
      exact ⟨hmk, hscore, hsim⟩
  · rintro ⟨hkw, hnom, hqe⟩
    have hkl : searchKeywordList semantic_query keywords = keywords := by
      unfold searchKeywordList
      simp [List.isEmpty_iff, hkw]
    have htruthy : optVecTruthy (get_embedding semantic_query) = false := by
      rw [hqe]; rfl
    have hprim : rankedPrimary notes (get_embedding semantic_query) threshold
        (searchKeywordList semantic_query keywords)
        (searchDirectQueryLower semantic_query keywords) key = [] := by
      unfold rankedPrimary
      apply List.filterMap_eq_nil_iff.mpr
      intro n hn
      apply (rankNote_eq_none_iff _ _ _ _ _ _).mpr
      rw [hkl, hnom n hn, htruthy]
      rfl
    unfold searchRanked
    rw [rankedAll_eq_primary (Or.inr htruthy), hprim]
    simp [sortRanked]

/-- Witness for C4: with keyword list `[k]`, no candidates and no
embedding provider, the ranked result set is empty. -/
theorem claim_C4_witness :
    searchRanked [] "q" ["k"] () (fun _ => none) 0.2 = [] :=
  (claim_C4 [] "q" ["k"] () (fun _ => none) 0.2).2.2
    ⟨by simp, fun n hn => absurd hn (List.not_mem_nil n), rfl⟩

theorem mem_rankedAll_cases {notes : List Note} {qe : Option (List ℝ)} {t : ℝ}
    {kl : List String} {dql : String} {key : Unit} {e : RankedEntry}
    (h : e ∈ rankedAll notes qe t kl dql key) :
    e ∈ rankedPrimary notes qe t kl dql key ∨ e ∈ rankedFallback notes (qe.getD []) := by
  by_cases hc : ((rankedPrimary notes qe t kl dql key).isEmpty && optVecTruthy qe) = true
  · unfold rankedAll at h
    simp only [hc, if_true] at h
    exact Or.inr h
  · have hc2 : ((rankedPrimary notes qe t kl dql key).isEmpty && optVecTruthy qe) = false := by
      cases hb : ((rankedPrimary notes qe t kl dql key).isEmpty && optVecTruthy qe)
      · rfl
      · exact absurd hb hc
    unfold rankedAll at h
    simp only [hc2, Bool.false_eq_true, if_false] at h
    exact Or.inl h

/-- C5: the returned results of `_semantic_search_notes` are ordered by
the composite key `(directMatch, matchedCount, textMatch, similarity,
score)` lexicographically descending, and every result's key has exactly
that shape with `score = similarity + 0.25·textMatch +
0.05·max(0, matchedCount − 1) + 0.35·directMatch`. Direct hits therefore
precede non-direct ones, then higher matched counts, then keyword hits,
with similarity and score breaking the remaining ties. -/
theorem claim_C5 (notes : List Note) (semantic_query : String) (keywords : List String)
    (key : Unit) (limit offset : Nat) (get_embedding : String → Option (List ℝ))
    (threshold : ℝ) :
    List.Pairwise (fun a b => b.rank_key ≤ a.rank_key)
      (_semantic_search_notes notes semantic_query keywords key limit offset
        get_embedding threshold).1 ∧
    ∀ e ∈ (_semantic_search_notes notes semantic_query keywords key limit offset
        get_embedding threshold).1,
      ∃ d tm : ℝ, (d = 0 ∨ d = 1) ∧
        tm = (if e.info.matched_keywords.isEmpty then (0 : ℝ) else 1) ∧
        e.rank_key = [d, (e.info.matched_keywords.length : ℝ), tm,
          e.info.similarity, e.score] ∧
        e.score = e.info.similarity + 0.25 * tm +
          0.05 * max 0 ((e.info.matched_keywords.length : ℝ) - 1) + 0.35 * d := by
  have hsub : ((searchRanked notes semantic_query keywords key get_embedding
        threshold).drop offset).take limit |>.Sublist
      (searchRanked notes semantic_query keywords key get_embedding threshold) :=
    (List.take_sublist _ _).trans (List.drop_sublist _ _)
  constructor
  · exact List.Pairwise.sublist hsub (sortRanked_sorted _)
  · intro e he
    have he2 : e ∈ searchRanked notes semantic_query keywords key get_embedding
        threshold := hsub.subset he
    unfold searchRanked at he2
    have he3 := mem_sortRanked.mp he2
    rcases mem_rankedAll_cases he3 with hp | hf
    · rcases mem_rankedPrimary.mp hp with ⟨n, -, hsome⟩
      exact (rankNote_some_spec hsome).2.2.2
    · obtain ⟨-, -, hmk, hkey, hscore, -⟩ := mem_rankedFallback_spec hf
      refine ⟨0, 0, Or.inl rfl, by simp [hmk], ?_, ?_⟩
      · rw [hkey, hmk]
        norm_num
      · rw [hscore, hmk]
        norm_num

/-- Witness for C5 at a concrete search call with one candidate note. -/
theorem claim_C5_witness :
    List.Pairwise (fun a b => b.rank_key ≤ a.rank_key)
      (_semantic_search_notes [] "q" ["k"] () 10 0 (fun _ => none) 0.2).1 :=
  (claim_C5 [] "q" ["k"] () 10 0 (fun _ => none) 0.2).1

theorem relatedStep_snd (note : Note) (qe : Option (List ℝ)) (t : ℝ)
    (kws : List String) (dql : String) (key : Unit)
    (st : List RankedEntry × Bool) (c : Note) :
    (relatedStep note qe t kws dql key st c).2 =
      if (c.id == note.id) = true then st.2
      else st.2 || (optVecTruthy qe && decide (noteSimilarity qe c ≥ t)) := by
  unfold relatedStep
  by_cases hid : (c.id == note.id) = true
  · simp only [hid, if_true]
  · have hid2 : (c.id == note.id) = false := by
      cases hb : (c.id == note.id)
      · rfl
      · exact absurd hb hid
    simp only [hid2, Bool.false_eq_true, if_false]
    split <;> first | rfl | (split <;> rfl)

theorem relatedState_snd_aux (note : Note) (qe : Option (List ℝ)) (t : ℝ)
    (kws : List String) (dql : String) (key : Unit) :
    ∀ (notes : List Note) (st0 : List RankedEntry × Bool),
      (notes.foldl (relatedStep note qe t kws dql key) st0).2 =
        (st0.2 || notes.any fun c =>
          (!(c.id == note.id)) && (optVecTruthy qe && decide (noteSimilarity qe c ≥ t))) := by
  intro notes
  induction notes with
  | nil => intro st0; simp
  | cons c cs ih =>
    intro st0
    simp only [List.foldl_cons, List.any_cons]
    rw [ih]
    rw [relatedStep_snd]
    by_cases hid : (c.id == note.id) = true
    · simp [hid]
    · have hid2 : (c.id == note.id) = false := by
        cases hb : (c.id == note.id)
        · rfl
        · exact absurd hb hid
      simp only [hid2, Bool.false_eq_true, if_false, Bool.not_false, Bool.true_and]
      rw [Bool.or_assoc]

theorem relatedStep_fst_mem {note : Note} {qe : Option (List ℝ)} {t : ℝ}
    {kws : List String} {dql : String} {key : Unit}
    {st : List RankedEntry × Bool} {c : Note} {e : RankedEntry}
    (h : e ∈ (relatedStep note qe t kws dql key st c).1) :
    e ∈ st.1 ∨ ((c.id == note.id) = false ∧ e.note = c) := by
  unfold relatedStep at h
  by_cases hid : (c.id == note.id) = true
  · simp only [hid, if_true] at h
    exact Or.inl h
  · have hid2 : (c.id == note.id) = false := by
      cases hb : (c.id == note.id)
      · rfl
      · exact absurd hb hid
    simp only [hid2, Bool.false_eq_true, if_false] at h
    split at h
    all_goals split at h
    all_goals
      first
      | exact Or.inl h
      | · simp only [List.mem_append, List.mem_singleton] at h
          rcases h with h | rfl
          · exact Or.inl h
          · exact Or.inr ⟨hid2, rfl⟩

theorem relatedState_fst_mem {note : Note} {qe : Option (List ℝ)} {t : ℝ}
    {kws : List String} {dql : String} {key : Unit} {e : RankedEntry} :
    ∀ {notes : List Note} {st0 : List RankedEntry × Bool},
      e ∈ (notes.foldl (relatedStep note qe t kws dql key) st0).1 →
      e ∈ st0.1 ∨ ∃ c ∈ notes, (c.id == note.id) = false ∧ e.note = c := by
  intro notes
  induction notes with
  | nil => intro st0 h; exact Or.inl h
  | cons c cs ih =>
    intro st0 h
    simp only [List.foldl_cons] at h
    rcases ih h with h2 | ⟨c2, hc2, hcid, hnote⟩
    · rcases relatedStep_fst_mem h2 with h3 | ⟨hcid, hnote⟩
      · exact Or.inl h3
      · exact Or.inr ⟨c, by simp, hcid, hnote⟩
    · exact Or.inr ⟨c2, by simp [hc2], hcid, hnote⟩

/-- C7 (amended): the relatedness mode label is `semantic` iff some
candidate other than `X` itself has a truthy query embedding and a
similarity meeting the threshold — whether or not it also has a keyword
hit (the code sets `used_semantic` before checking for keyword matches);
and `X` is never among its own related results. -/
theorem claim_C7_amended (note : Note) (notes : List Note) (key : Unit)
    (qe : Option (List ℝ)) (limit : Nat) (keywords : List String) (threshold : ℝ) :
    ((_related_notes note notes key qe limit keywords threshold).2.2 = "semantic" ↔
      ∃ c ∈ notes, c.id ≠ note.id ∧ optVecTruthy qe = true ∧
        noteSimilarity qe c ≥ threshold) ∧
    (∀ e ∈ (_related_notes note notes key qe limit keywords threshold).1,
      e.note.id ≠ note.id) := by
  have hsnd := relatedState_snd_aux note qe threshold keywords
    (pyLower (pyStrip (keywords.headD ""))) key notes ([], false)
  constructor
  · have hmode : (_related_notes note notes key qe limit keywords threshold).2.2 =
        if (relatedState note notes key qe keywords threshold).2 then "semantic"
        else "keyword" := rfl
    rw [hmode]
    unfold relatedState
    rw [hsnd]
    simp only [Bool.false_or]
    cases hany : (notes.any fun c =>
        (!(c.id == note.id)) && (optVecTruthy qe && decide (noteSimilarity qe c ≥ threshold))) with
    | false =>
      simp only [Bool.false_eq_true, if_false]
      constructor
      · intro h
        exact absurd h (by decide)
      · rintro ⟨c, hc, hne, htr, hge⟩
        have hcval : ((!(c.id == note.id)) &&
            (optVecTruthy qe && decide (noteSimilarity qe c ≥ threshold))) = true := by
          simp [htr, hge, hne]
        have h2 : (notes.any fun c =>
            (!(c.id == note.id)) &&
              (optVecTruthy qe && decide (noteSimilarity qe c ≥ threshold))) = true := by
          rw [List.any_eq_true]
          exact ⟨c, hc, hcval⟩
        rw [h2] at hany
        cases hany
    | true =>
      simp only [if_true]
      constructor
      · intro _
        rcases List.any_eq_true.mp hany with ⟨c, hc, hb⟩
        rw [Bool.and_eq_true, Bool.and_eq_true] at hb
        refine ⟨c, hc, ?_, hb.2.1, of_decide_eq_true hb.2.2⟩
        intro heq
        rw [heq] at hb
        simp at hb
      · intro _
        trivial
  · intro e he
    have he2 : e ∈ sortRanked (relatedState note notes key qe keywords threshold).1 :=
      (List.take_sublist _ _).subset he
    have he3 := mem_sortRanked.mp he2
    unfold relatedState at he3
    rcases relatedState_fst_mem he3 with h | ⟨c, -, hcid, hnote⟩
    · cases h
    · rw [hnote]
      intro heq
      rw [heq] at hcid
      simp at hcid

theorem relatedStep_fst_mem_kw {note : Note} {qe : Option (List ℝ)} {t : ℝ}
    {kws : List String} {dql : String} {key : Unit}
    {st : List RankedEntry × Bool} {c : Note} {e : RankedEntry}
    (h : e ∈ (relatedStep note qe t kws dql key st c).1) :
    e ∈ st.1 ∨ e.info.matched_keywords =
      (if kws.isEmpty then ([] : List String) else _note_matching_keywords c kws key) := by
  unfold relatedStep at h
  by_cases hid : (c.id == note.id) = true
  · simp only [hid, if_true] at h
    exact Or.inl h
  · have hid2 : (c.id == note.id) = false := by
      cases hb : (c.id == note.id)
      · rfl
      · exact absurd hb hid
    simp only [hid2, Bool.false_eq_true, if_false] at h
    cases hke : kws.isEmpty with
    | false =>
      simp only [hke, Bool.false_eq_true, if_false] at h ⊢
      split at h
      · exact Or.inl h
      · simp only [List.mem_append, List.mem_singleton] at h
        rcases h with h | rfl
        · exact Or.inl h
        · exact Or.inr rfl
    | true =>
      simp only [hke, if_true] at h ⊢
      split at h
      · exact Or.inl h
      · simp only [List.mem_append, List.mem_singleton] at h
        rcases h with h | rfl
        · exact Or.inl h
        · exact Or.inr rfl

/-- The note whose related documents are requested in the C7 counterexample. -/
def relNoteX : Note :=
  ⟨1, none, none, "", false, none, [], [], none⟩

/-- The single candidate of the C7 counterexample: it matches the keyword
`alpha` by title and also has embedding similarity 1 to the query. -/
def relNoteC : Note :=
  ⟨2, some "alpha", none, "", false, none, [], [], some [(1 : ℝ)]⟩

theorem cos_sim_one : _cosine_similarity [(1 : ℝ)] [(1 : ℝ)] = 1 := by
  unfold _cosine_similarity
  norm_num [dotList, sumSq, Real.sqrt_one]

theorem relNoteC_similarity : noteSimilarity (some [(1 : ℝ)]) relNoteC = 1 := by
  unfold noteSimilarity
  simp only [List.isEmpty_cons, Bool.false_eq_true, if_false]
  have hemb : _parse_embedding relNoteC.embedding = some [(1 : ℝ)] := rfl
  rw [hemb]
  exact cos_sim_one

/-- C7 is refuted as stated: with note X (id 1), one candidate C (id 2,
title `alpha`, embedding `[1]`), query embedding `[1]`, keywords
`["alpha"]` and threshold 0.2, every included result is a keyword hit
(its matched keyword list is nonempty), yet the mode label is
`semantic`: the code raises the `used_semantic` flag for any candidate
whose similarity meets the threshold, before looking at keyword hits. -/
theorem claim_C7_counterexample :
    (_related_notes relNoteX [relNoteC] () (some [(1 : ℝ)]) 5 ["alpha"] 0.2).2.2 =
      "semantic" ∧
    ∀ e ∈ (_related_notes relNoteX [relNoteC] () (some [(1 : ℝ)]) 5 ["alpha"] 0.2).1,
      e.info.matched_keywords ≠ [] := by
  have hdec : decide (noteSimilarity (some [(1 : ℝ)]) relNoteC ≥ (0.2 : ℝ)) = true :=
    decide_eq_true (by rw [relNoteC_similarity]; norm_num)
  have hb : ((!(relNoteC.id == relNoteX.id)) &&
      (optVecTruthy (some [(1 : ℝ)]) &&
        decide (noteSimilarity (some [(1 : ℝ)]) relNoteC ≥ (0.2 : ℝ)))) = true := by
    rw [hdec]
    rfl
  have hsnd := relatedState_snd_aux relNoteX (some [(1 : ℝ)]) 0.2 ["alpha"]
    (pyLower (pyStrip ((["alpha"] : List String).headD ""))) () [relNoteC] ([], false)
  have hsnd2 : (relatedState relNoteX [relNoteC] () (some [(1 : ℝ)]) ["alpha"] 0.2).2 =
      true := by
    unfold relatedState
    rw [hsnd]
    simp [hb]
  constructor
  · have hmode :
        (_related_notes relNoteX [relNoteC] () (some [(1 : ℝ)]) 5 ["alpha"] 0.2).2.2 =
          if (relatedState relNoteX [relNoteC] () (some [(1 : ℝ)]) ["alpha"] 0.2).2
          then "semantic" else "keyword" := rfl
    rw [hmode, hsnd2]
    rfl
  · intro e he
    have he2 : e ∈ sortRanked
        (relatedState relNoteX [relNoteC] () (some [(1 : ℝ)]) ["alpha"] 0.2).1 :=
      (List.take_sublist _ _).subset he
    have he3 := mem_sortRanked.mp he2
    unfold relatedState at he3
    rw [List.foldl_cons, List.foldl_nil] at he3
    rcases relatedStep_fst_mem_kw he3 with h | hkw
    · cases h
    · have hval : (if (["alpha"] : List String).isEmpty then ([] : List String)
          else _note_matching_keywords relNoteC ["alpha"] ()) = ["alpha"] := by decide
      rw [hval] at hkw
      rw [hkw]
      simp

/-! ## The leader-follower clusterer (`clustering.py`) -/

/-- The note dict fed to `LeaderFollowerClusterer.add_note`
(`{"id": ..., "embedding": [...], "title": ...}`); `none` stands for an
absent key. -/
structure ClusterNote where
  id : Int
  embedding : Option (List ℝ)
  title : Option String

/-- One cluster of `LeaderFollowerClusterer.clusters`. -/
structure Cluster where
  id : Nat
  centroid : List ℝ
  members : List ClusterNote
  leader_title : String

/-- The best-cluster scan of `add_note`: walk the clusters in order with
the running index, keeping the index of the current best
(`sim > self.threshold and sim > best_sim`, `best_sim` starting at
`-1.0`). -/
noncomputable def bestClusterIdx (threshold : ℝ) (vec : List ℝ) :
    List Cluster → Nat → Option Nat → ℝ → Option Nat
  | [], _, best, _ => best
  | c :: cs, i, best, best_sim =>
    if cosine_similarity vec c.centroid > threshold ∧
        cosine_similarity vec c.centroid > best_sim then
      bestClusterIdx threshold vec cs (i + 1) (some i) (cosine_similarity vec c.centroid)
    else
      bestClusterIdx threshold vec cs (i + 1) best best_sim

/-- `LeaderFollowerClusterer.add_note` as a function of the cluster list:
a note with a falsy embedding is skipped; with a best cluster its note is
appended to that cluster's members (the centroid is kept — the leader
fixes it); otherwise a new cluster is appended whose id is the current
cluster count, whose centroid is the embedding and whose leader title is
`note.get("title", "Untitled")`. -/
noncomputable def add_note (threshold : ℝ) (clusters : List Cluster)
    (note : ClusterNote) : List Cluster :=
  match note.embedding with
  | none => clusters
  | some vec =>
    if vec.isEmpty then clusters
    else
      match bestClusterIdx threshold vec clusters 0 none (-1) with
      | some i =>
        match clusters[i]? with
        | some c => clusters.set i { c with members := c.members ++ [note] }
        | none => clusters
      | none =>
        clusters ++ [{ id := clusters.length, centroid := vec, members := [note],
                       leader_title := note.title.getD "Untitled" }]

theorem bestClusterIdx_go (t : ℝ) (vec : List ℝ) :
    ∀ (cs pre : List Cluster) (best : Option Nat) (bs : ℝ),
      ((best = none ∧ bs = -1 ∧
          ∀ c ∈ pre, ¬ (cosine_similarity vec c.centroid > t ∧
            cosine_similarity vec c.centroid > (-1 : ℝ))) ∨
        (∃ j c, best = some j ∧ pre[j]? = some c ∧
          bs = cosine_similarity vec c.centroid ∧ bs > t ∧
          ∀ c' ∈ pre, cosine_similarity vec c'.centroid ≤ bs)) →
      ((bestClusterIdx t vec cs pre.length best bs = none ∧
          ∀ c ∈ pre ++ cs, ¬ (cosine_similarity vec c.centroid > t ∧
            cosine_similarity vec c.centroid > (-1 : ℝ))) ∨
        (∃ j c, bestClusterIdx t vec cs pre.length best bs = some j ∧
          (pre ++ cs)[j]? = some c ∧
          cosine_similarity vec c.centroid > t ∧
          ∀ c' ∈ pre ++ cs, cosine_similarity vec c'.centroid ≤
            cosine_similarity vec c.centroid)) := by
  intro cs
  induction cs with
  | nil =>
    intro pre best bs hinv
    rcases hinv with ⟨hb, -, hall⟩ | ⟨j, c, hb, hjc, hbs, hbt, hmax⟩
    · left
      refine ⟨?_, by simpa using hall⟩
      rw [hb]
      rfl
    · right
      refine ⟨j, c, ?_, by simpa using hjc, ?_, ?_⟩
      · rw [hb]
        rfl
      · rw [← hbs]
        exact hbt
      · intro c' hc'
        rw [← hbs]
        exact hmax c' (by simpa using hc')
  | cons c cs ih =>
    intro pre best bs hinv
    have hstep : bestClusterIdx t vec (c :: cs) pre.length best bs =
        if cosine_similarity vec c.centroid > t ∧
            cosine_similarity vec c.centroid > bs then
          bestClusterIdx t vec cs (pre.length + 1) (some pre.length)
            (cosine_similarity vec c.centroid)
        else bestClusterIdx t vec cs (pre.length + 1) best bs := rfl
    have hlen : (pre ++ [c]).length = pre.length + 1 := by simp
    have happ : (pre ++ [c]) ++ cs = pre ++ c :: cs := by
      rw [List.append_assoc, List.singleton_append]
    by_cases hcond : cosine_similarity vec c.centroid > t ∧
        cosine_similarity vec c.centroid > bs
    · have hinv2 : ((some pre.length : Option Nat) = none ∧
            cosine_similarity vec c.centroid = -1 ∧
          ∀ c0 ∈ pre ++ [c], ¬ (cosine_similarity vec c0.centroid > t ∧
            cosine_similarity vec c0.centroid > (-1 : ℝ))) ∨
          (∃ j c0, (some pre.length : Option Nat) = some j ∧
            (pre ++ [c])[j]? = some c0 ∧
            cosine_similarity vec c.centroid = cosine_similarity vec c0.centroid ∧
            cosine_similarity vec c.centroid > t ∧
            ∀ c' ∈ pre ++ [c], cosine_similarity vec c'.centroid ≤
              cosine_similarity vec c.centroid) := by
        right
        refine ⟨pre.length, c, rfl, ?_, rfl, hcond.1, ?_⟩
        · rw [List.getElem?_append_right (le_refl pre.length)]
          simp
        · intro c' hc'
          rcases List.mem_append.mp hc' with hc' | hc'
          · rcases hinv with ⟨-, hbs, hall⟩ | ⟨j, c0, -, -, hbs, hbt, hmax⟩
            · have h1 := hall c' hc'
              by_cases h2 : cosine_similarity vec c'.centroid > t
              · have h3 : ¬ cosine_similarity vec c'.centroid > (-1 : ℝ) := by
                  intro h4
                  exact h1 ⟨h2, h4⟩
                push_neg at h3
                have h5 : bs = -1 := hbs
                linarith [hcond.2, h5 ▸ hcond.2]
              · push_neg at h2
                linarith [hcond.1]
            · exact le_trans (hmax c' hc') (le_of_lt hcond.2)
          · rcases List.mem_singleton.mp hc' with rfl
            exact le_refl _
      have := ih (pre ++ [c]) (some pre.length) (cosine_similarity vec c.centroid) hinv2
      rw [hlen, happ] at this
      rw [hstep, if_pos hcond]
      exact this
    · have hinv2 : (best = none ∧ bs = -1 ∧
          ∀ c0 ∈ pre ++ [c], ¬ (cosine_similarity vec c0.centroid > t ∧
            cosine_similarity vec c0.centroid > (-1 : ℝ))) ∨
          (∃ j c0, best = some j ∧ (pre ++ [c])[j]? = some c0 ∧
            bs = cosine_similarity vec c0.centroid ∧ bs > t ∧
            ∀ c' ∈ pre ++ [c], cosine_similarity vec c'.centroid ≤ bs) := by
        rcases hinv with ⟨hb, hbs, hall⟩ | ⟨j, c0, hb, hjc, hbs, hbt, hmax⟩
        · left
          refine ⟨hb, hbs, ?_⟩
          intro c0 hc0
          rcases List.mem_append.mp hc0 with hc0 | hc0
          · exact hall c0 hc0
          · rcases List.mem_singleton.mp hc0 with rfl
            rw [← hbs]
            exact hcond
        · right
          have hjlt : j < pre.length := by
            by_contra h
            push_neg at h
            rw [List.getElem?_eq_none h] at hjc
            cases hjc
          refine ⟨j, c0, hb, ?_, hbs, hbt, ?_⟩
          · rw [List.getElem?_append_left hjlt]
            exact hjc
          · intro c' hc'
            rcases List.mem_append.mp hc' with hc' | hc'
            · exact hmax c' hc'
            · rcases List.mem_singleton.mp hc' with rfl
              by_contra h
              push_neg at h
              exact hcond ⟨lt_trans hbt h, h⟩
      have := ih (pre ++ [c]) best bs hinv2
      rw [hlen, happ] at this
      rw [hstep, if_neg hcond]
      exact this

/-- C8 (amended, for thresholds within the cosine range, `-1 ≤ t`): a
note with a missing or empty embedding leaves the clusters unchanged; a
note with a non-empty embedding is appended to the members of an
existing cluster whose fixed centroid has similarity exceeding `t` and
at least the similarity of every other cluster, leaving that cluster's
centroid (and id and title) unchanged, whenever some cluster exceeds
`t`; otherwise a new cluster is appended whose id is the prior cluster
count, whose centroid is exactly the embedding, whose leader title is
`note.get("title", "Untitled")` and whose sole member is the note. For
`t < -1` the claim fails: a similarity of exactly `-1` exceeds `t` but
is masked by the `best_sim = -1.0` sentinel. -/
theorem claim_C8_amended (threshold : ℝ) (clusters : List Cluster) (note : ClusterNote)
    (ht : (-1 : ℝ) ≤ threshold) :
    (note.embedding = none ∨ note.embedding = some [] →
      add_note threshold clusters note = clusters) ∧
    (∀ vec, note.embedding = some vec → vec ≠ [] →
      ((∃ c ∈ clusters, cosine_similarity vec c.centroid > threshold) →
        ∃ i c, clusters[i]? = some c ∧
          cosine_similarity vec c.centroid > threshold ∧
          (∀ c' ∈ clusters,
            cosine_similarity vec c'.centroid ≤ cosine_similarity vec c.centroid) ∧
          add_note threshold clusters note =
            clusters.set i { c with members := c.members ++ [note] }) ∧
      ((∀ c ∈ clusters, ¬ cosine_similarity vec c.centroid > threshold) →
        add_note threshold clusters note = clusters ++
          [{ id := clusters.length, centroid := vec, members := [note],
             leader_title := note.title.getD "Untitled" }])) := by
  have hgo := bestClusterIdx_go threshold
  constructor
  · intro h
    unfold add_note
    rcases h with h | h
    · rw [h]
    · rw [h]
      rfl
  · intro vec hemb hne
    have hie : vec.isEmpty = false := by
      cases vec
      · exact absurd rfl hne
      · rfl
    have hmain := hgo vec clusters [] none (-1)
      (Or.inl ⟨rfl, rfl, by simp⟩)
    simp only [List.length_nil, List.nil_append] at hmain
    constructor
    · rintro ⟨c0, hc0, hgt⟩
      rcases hmain with ⟨-, hall⟩ | ⟨j, c, hres, hjc, hct, hmax⟩
      · exact absurd ⟨hgt, lt_of_le_of_lt ht hgt⟩ (hall c0 hc0)
      · refine ⟨j, c, hjc, hct, hmax, ?_⟩
        unfold add_note
        rw [hemb]
        simp only [hie, Bool.false_eq_true, if_false]
        rw [hres]
        have hred : (match clusters[j]? with
            | some c => clusters.set j { c with members := c.members ++ [note] }
            | none => clusters) =
            clusters.set j { c with members := c.members ++ [note] } := by
          rw [hjc]
        exact hred
    · intro hnone
      rcases hmain with ⟨hres, -⟩ | ⟨j, c, hres, hjc, hct, -⟩
      · unfold add_note
        rw [hemb]
        simp only [hie, Bool.false_eq_true, if_false]
        rw [hres]
      · have hc : c ∈ clusters := by
          have hjlt : j < clusters.length := by
            by_contra h
            push_neg at h
            rw [List.getElem?_eq_none h] at hjc
            cases hjc
          have hmem : clusters[j] ∈ clusters := List.getElem_mem hjlt
          rw [List.getElem?_eq_getElem hjlt, Option.some.injEq] at hjc
          exact hjc ▸ hmem
        exact absurd hct (hnone c hc)

/-- The lone pre-existing cluster of the C8 counterexample: its centroid
`[-1]` has cosine similarity exactly `-1` to the incoming embedding `[1]`. -/
def clusterC0 : Cluster := ⟨0, [(-1 : ℝ)], [], "t"⟩

/-- The incoming note of the C8 counterexample and the C8 witness. -/
def cnoteN : ClusterNote := ⟨5, some [(1 : ℝ)], some "T"⟩

theorem cos_sim_neg_one : cosine_similarity [(1 : ℝ)] [(-1 : ℝ)] = -1 := by
  unfold cosine_similarity
  norm_num [dotList, sumSq, Real.sqrt_one]

/-- C8 is refuted as stated for a threshold below the cosine range: with
threshold `-2` and one cluster whose centroid has similarity exactly
`-1 > -2` to the note's embedding, the claim demands the note be
appended to that cluster, but the code's `best_sim = -1.0` sentinel
masks the similarity (`sim > best_sim` fails) and a new cluster is
created instead. -/
theorem claim_C8_counterexample :
    cosine_similarity [(1 : ℝ)] clusterC0.centroid > (-2 : ℝ) ∧
    clusterC0 ∈ [clusterC0] ∧
    add_note (-2) [clusterC0] cnoteN =
      [clusterC0,
       { id := 1, centroid := [(1 : ℝ)], members := [cnoteN], leader_title := "T" }] ∧
    add_note (-2) [clusterC0] cnoteN ≠
      [{ clusterC0 with members := clusterC0.members ++ [cnoteN] }] := by
  have hcent : clusterC0.centroid = [(-1 : ℝ)] := rfl
  have hcos : cosine_similarity [(1 : ℝ)] clusterC0.centroid = -1 := by
    rw [hcent, cos_sim_neg_one]
  have hcond : ¬ (cosine_similarity [(1 : ℝ)] clusterC0.centroid > (-2 : ℝ) ∧
      cosine_similarity [(1 : ℝ)] clusterC0.centroid > (-1 : ℝ)) := by
    rw [hcos]
    intro h
    exact absurd h.2 (by norm_num)
  have hbest : bestClusterIdx (-2) [(1 : ℝ)] [clusterC0] 0 none (-1) = none := by
    have hstep : bestClusterIdx (-2) [(1 : ℝ)] [clusterC0] 0 none (-1) =
        if cosine_similarity [(1 : ℝ)] clusterC0.centroid > (-2 : ℝ) ∧
            cosine_similarity [(1 : ℝ)] clusterC0.centroid > (-1 : ℝ) then
          bestClusterIdx (-2) [(1 : ℝ)] [] 1 (some 0)
            (cosine_similarity [(1 : ℝ)] clusterC0.centroid)
        else bestClusterIdx (-2) [(1 : ℝ)] [] 1 none (-1) := rfl
    rw [hstep, if_neg hcond]
    rfl
  have hadd : add_note (-2) [clusterC0] cnoteN =
      [clusterC0,
       { id := 1, centroid := [(1 : ℝ)], members := [cnoteN], leader_title := "T" }] := by
    unfold add_note
    have hemb : cnoteN.embedding = some [(1 : ℝ)] := rfl
    rw [hemb]
    simp only [List.isEmpty_cons, Bool.false_eq_true, if_false]
    rw [hbest]
    rfl
  refine ⟨by rw [hcos]; norm_num, by simp, hadd, ?_⟩
  rw [hadd]
  intro h
  have hlen := congrArg List.length h
  simp at hlen

/-- C8 witness: the amended theorem evaluated at threshold `0.75`, no
pre-existing clusters and a note with embedding `[1]`. -/
theorem claim_C8_witness :
    ((cnoteN.embedding = none ∨ cnoteN.embedding = some [] →
        add_note 0.75 [] cnoteN = []) ∧
      (∀ vec, cnoteN.embedding = some vec → vec ≠ [] →
        ((∃ c ∈ ([] : List Cluster), cosine_similarity vec c.centroid > 0.75) →
          ∃ i c, ([] : List Cluster)[i]? = some c ∧
            cosine_similarity vec c.centroid > 0.75 ∧
            (∀ c' ∈ ([] : List Cluster),
              cosine_similarity vec c'.centroid ≤ cosine_similarity vec c.centroid) ∧
            add_note 0.75 [] cnoteN =
              ([] : List Cluster).set i { c with members := c.members ++ [cnoteN] }) ∧
        ((∀ c ∈ ([] : List Cluster), ¬ cosine_similarity vec c.centroid > 0.75) →
          add_note 0.75 [] cnoteN = ([] : List Cluster) ++
            [{ id := ([] : List Cluster).length, centroid := vec, members := [cnoteN],
               leader_title := cnoteN.title.getD "Untitled" }]))) :=
  claim_C8_amended 0.75 [] cnoteN (by norm_num)

/-- C7 witness: the amended theorem evaluated at an empty candidate set
and no query embedding (mode is `keyword`, no results). -/
theorem claim_C7_witness :
    ((_related_notes relNoteX [] () none 5 [] 0.2).2.2 = "semantic" ↔
      ∃ c ∈ ([] : List Note), c.id ≠ relNoteX.id ∧ optVecTruthy none = true ∧
        noteSimilarity none c ≥ 0.2) ∧
    (∀ e ∈ (_related_notes relNoteX [] () none 5 [] 0.2).1,
      e.note.id ≠ relNoteX.id) :=
  claim_C7_amended relNoteX [] () none 5 [] 0.2
